import Mathlib

/-
Verification of the tiny_aria memory subsystem against its specification.

The Python sources under src/layers/memory are shallowly embedded below:
  * working_memory.py   -> MemoryItem, WorkingMemory, wmStore, wmRetrieve, ...
  * episodic_memory.py  -> EpisodeRow, EpisodicMemory, storeEpisode, ...
  * associations.py     -> NodeData, EdgeData, AssociationNetwork, ...
  * memory_layer.py     -> processModel (the try/except structure of process)
  * memory_manager.py   -> analyzeEpisodePatterns, reinforcementCalls, ...

Modelling conventions:
  * Python floats are modelled as rationals; `time.time()` is modelled by an
    explicit `now : Rat` argument threaded through each operation.
  * Python dicts are modelled as association lists (`Dict beta`), with
    Python dict semantics: lookup finds the first matching key, assignment
    updates the first occurrence in place or appends a fresh key at the end.
  * `np.exp` is transcendental, hence not a computable rational function;
    the network operations are parameterised by an abstract `expf : Rat -> Rat`
    standing for `np.exp`.  Scenario theorems only evaluate it at 0 and carry
    the hypothesis `expf 0 = 1` (an exact identity of both real exp and IEEE
    `np.exp`).  The decay formula itself is additionally embedded over the
    reals (`applyDecayReal`) using `Real.exp` for the monotonicity claim.
  * `collections.deque(maxlen=c)` keeps the last `c` appended elements;
    `dequeAppend` mirrors that.
-/

namespace TinyAria

/-- Python dict as an insertion-ordered association list: lookup of the first
matching key. -/
def dlookup {β : Type} (d : List (String × β)) (k : String) : Option β :=
  match d with
  | [] => none
  | (k1, v) :: rest => if k1 = k then some v else dlookup rest k

/-- Python dict assignment `d[k] = v`: update the first occurrence of `k` in
place, otherwise append the new binding at the end. -/
def dinsert {β : Type} (d : List (String × β)) (k : String) (v : β) :
    List (String × β) :=
  match d with
  | [] => [(k, v)]
  | (k1, v1) :: rest =>
      if k1 = k then (k1, v) :: rest else (k1, v1) :: dinsert rest k v

/-- Python `del d[k]`: remove the first binding of `k`. -/
def derase {β : Type} (d : List (String × β)) (k : String) :
    List (String × β) :=
  match d with
  | [] => []
  | (k1, v1) :: rest =>
      if k1 = k then rest else (k1, v1) :: derase rest k

/-- Stable insertion into a list sorted by the boolean relation `le`:
the new element goes after every earlier element `y` with `le y x`. -/
def insertSorted {σ : Type} (le : σ → σ → Bool) (x : σ) : List σ → List σ
  | [] => [x]
  | y :: ys => if le y x then y :: insertSorted le x ys else x :: y :: ys

/-- Stable sort by the boolean relation `le` (insertion sort), modelling
Python's stable `list.sort(key=...)` and SQLite `ORDER BY`. -/
def sortedBy {σ : Type} (le : σ → σ → Bool) (l : List σ) : List σ :=
  match l with
  | [] => []
  | x :: xs => insertSorted le x (sortedBy le xs)

/-- `collections.deque(maxlen=cap).append k`: append and keep only the last
`cap` elements. -/
def dequeAppend (cap : Nat) (xs : List String) (k : String) : List String :=
  let ys := xs ++ [k]
  ys.drop (ys.length - cap)

/-! ## working_memory.py -/

/-- `MemoryItem` dataclass of working_memory.py. -/
structure MemoryItem (α : Type) where
  content : α
  timestamp : Rat
  accessCount : Nat
  lastAccess : Rat
  importance : Rat
  deriving DecidableEq

/-- `WorkingMemory`: bounded deque of keys plus the key-to-item dict. -/
structure WorkingMemory (α : Type) where
  capacity : Nat
  items : List String
  itemMap : List (String × MemoryItem α)
  deriving DecidableEq

/-- A freshly constructed `WorkingMemory` with configured `working_size`. -/
def wmInit (α : Type) (cap : Nat) : WorkingMemory α :=
  { capacity := cap, items := [], itemMap := [] }

/-- `MemoryItem.access`: bump access statistics. -/
def itemAccess {α : Type} (it : MemoryItem α) (now : Rat) : MemoryItem α :=
  { it with accessCount := it.accessCount + 1, lastAccess := now }

/-- Eviction score used in `_evict_least_important`:
`importance - age_in_hours`. -/
def evictScore {α : Type} (it : MemoryItem α) (now : Rat) : Rat :=
  it.importance - (now - it.timestamp) / 3600

/-- The `if score < min_score` update of the selection loop: keep the
strictly smallest score seen so far, so among equal scores the earliest
element wins. -/
def pickF (acc : Option (Rat × String)) (q : Rat × String) :
    Option (Rat × String) :=
  match acc with
  | none => some q
  | some (ms, bk) => if q.1 < ms then some q else some (ms, bk)

/-- The selection loop of `_evict_least_important`: scan the keys in deque
order, skip keys missing from the item map, and fold the score comparison. -/
def evictFold {α : Type} (m : List (String × MemoryItem α)) (now : Rat)
    (keys : List String) : Option (Rat × String) :=
  keys.foldl
    (fun acc key =>
      match dlookup m key with
      | none => acc
      | some it => pickF acc (evictScore it now, key))
    none

/-- `WorkingMemory._evict_least_important`.  Note the Python truthiness test
`if least_important_key:` — when the selected key is the empty string the
eviction silently does nothing. -/
def wmEvict {α : Type} (wm : WorkingMemory α) (now : Rat) : WorkingMemory α :=
  if wm.items.isEmpty then wm
  else
    match evictFold wm.itemMap now wm.items with
    | none => wm
    | some (_, k) =>
        if k = "" then wm
        else { wm with items := wm.items.erase k, itemMap := derase wm.itemMap k }

/-- `WorkingMemory.store`. -/
def wmStore {α : Type} (wm : WorkingMemory α) (now : Rat) (key : String)
    (content : α) (importance : Rat) : WorkingMemory α :=
  match dlookup wm.itemMap key with
  | some it =>
      { wm with
        itemMap := dinsert wm.itemMap key
          (itemAccess { it with content := content, importance := importance } now) }
  | none =>
      let it : MemoryItem α :=
        { content := content, timestamp := now, accessCount := 0,
          lastAccess := 0, importance := importance }
      let wm1 := if wm.capacity ≤ wm.items.length then wmEvict wm now else wm
      { wm1 with
        items := dequeAppend wm1.capacity wm1.items key,
        itemMap := dinsert wm1.itemMap key it }

/-- `WorkingMemory.retrieve`: the returned content together with the
post-access-bump state. -/
def wmRetrieve {α : Type} (wm : WorkingMemory α) (now : Rat) (key : String) :
    Option α × WorkingMemory α :=
  match dlookup wm.itemMap key with
  | some it =>
      (some it.content, { wm with itemMap := dinsert wm.itemMap key (itemAccess it now) })
  | none => (none, wm)

/-- `get_stats()['size']` of the working memory: the deque length. -/
def wmSize {α : Type} (wm : WorkingMemory α) : Nat :=
  wm.items.length

/-! ## episodic_memory.py

Rows of the sqlite `episodes` table.  `content` and `context` are stored via
`json.dumps` and read back via `json.loads`; for JSON-serialisable payloads
that round trip is the identity, so they are carried unchanged as values of the
type parameters `γ` and `δ`. -/

/-- One row of the `episodes` table / the `Episode` dataclass. -/
structure EpisodeRow (γ δ : Type) where
  id : String
  content : γ
  timestamp : Rat
  context : δ
  emotionalValence : Rat
  importance : Rat
  tags : List String
  accessCount : Nat
  lastAccess : Rat
  deriving DecidableEq

/-- The episodic store: the configured `episodic_limit` plus the table rows
(the row list is kept in the order SQLite deletion/ordering queries see it,
namely sorted order after a cleanup pass). -/
structure EpisodicMemory (γ δ : Type) where
  maxEpisodes : Nat
  rows : List (EpisodeRow γ δ)
  deriving DecidableEq

/-- A freshly initialised episodic store (empty table). -/
def emInit (γ δ : Type) (maxEpisodes : Nat) : EpisodicMemory γ δ :=
  { maxEpisodes := maxEpisodes, rows := [] }

/-- `INSERT OR REPLACE` keyed by the primary key `id`. -/
def upsertRow {γ δ : Type} (rows : List (EpisodeRow γ δ)) (r : EpisodeRow γ δ) :
    List (EpisodeRow γ δ) :=
  match rows with
  | [] => [r]
  | r1 :: rest => if r1.id = r.id then r :: rest else r1 :: upsertRow rest r

/-- The `ORDER BY importance ASC, timestamp ASC` comparison of the cleanup
query. -/
def cleanupLE {γ δ : Type} (a b : EpisodeRow γ δ) : Bool :=
  a.importance < b.importance ∨ (a.importance = b.importance ∧ a.timestamp ≤ b.timestamp)

/-- `EpisodicMemory._cleanup_if_needed`: once `count > max_episodes`, delete
the `count - max_episodes + 100` rows that come first by
`importance ASC, timestamp ASC`. -/
def emCleanup {γ δ : Type} (em : EpisodicMemory γ δ) : EpisodicMemory γ δ :=
  if em.rows.length ≤ em.maxEpisodes then em
  else
    let toRemove := em.rows.length - em.maxEpisodes + 100
    { em with rows := (sortedBy cleanupLE em.rows).drop toRemove }

/-- `EpisodicMemory.store_episode`: build the `Episode`, upsert the row, then
run the capacity cleanup. -/
def storeEpisode {γ δ : Type} (em : EpisodicMemory γ δ) (now : Rat)
    (episodeId : String) (content : γ) (context : δ)
    (emotionalValence : Rat) (importance : Rat) (tags : List String) :
    EpisodicMemory γ δ :=
  let row : EpisodeRow γ δ :=
    { id := episodeId, content := content, timestamp := now, context := context,
      emotionalValence := emotionalValence, importance := importance,
      tags := tags, accessCount := 0, lastAccess := 0 }
  emCleanup { em with rows := upsertRow em.rows row }

/-- `SELECT * FROM episodes WHERE id = ?` (first row with this id). -/
def findRow {γ δ : Type} (rows : List (EpisodeRow γ δ)) (episodeId : String) :
    Option (EpisodeRow γ δ) :=
  match rows with
  | [] => none
  | r :: rest => if r.id = episodeId then some r else findRow rest episodeId

/-- `_update_access_stats`: bump `access_count` / `last_access` of the row. -/
def bumpRow {γ δ : Type} (rows : List (EpisodeRow γ δ)) (episodeId : String)
    (now : Rat) : List (EpisodeRow γ δ) :=
  rows.map fun r =>
    if r.id = episodeId
    then { r with accessCount := r.accessCount + 1, lastAccess := now }
    else r

/-- `EpisodicMemory.retrieve_episode`: the episode object built from the row
before the access-stat bump, plus the post-bump store. -/
def retrieveEpisode {γ δ : Type} (em : EpisodicMemory γ δ) (now : Rat)
    (episodeId : String) : Option (EpisodeRow γ δ) × EpisodicMemory γ δ :=
  match findRow em.rows episodeId with
  | some r => (some r, { em with rows := bumpRow em.rows episodeId now })
  | none => (none, em)

/-- `get_recent_episodes`: `ORDER BY timestamp DESC LIMIT count`. -/
def recentEpisodes {γ δ : Type} (em : EpisodicMemory γ δ) (count : Nat) :
    List (EpisodeRow γ δ) :=
  (sortedBy (fun a b => b.timestamp ≤ a.timestamp) em.rows).take count

/-- `SELECT COUNT(*) FROM episodes`. -/
def emCount {γ δ : Type} (em : EpisodicMemory γ δ) : Nat :=
  em.rows.length

/-! ## associations.py -/

/-- Node attributes attached by `create_association` /`_activate_concept`. -/
structure NodeData where
  creationTime : Rat
  activationCount : Nat
  lastActivation : Rat
  deriving DecidableEq

/-- Edge attributes of an association. -/
structure EdgeData where
  strength : Rat
  atype : String
  creationTime : Rat
  lastReinforcement : Rat
  reinforcementCount : Nat
  deriving DecidableEq

/-- The `networkx.Graph` of `AssociationNetwork`, with its configuration.
Nodes and edges are insertion-ordered adjacency data keyed by concept label
resp. unordered label pair. -/
structure AssociationNetwork where
  nodes : List (String × NodeData)
  edges : List ((String × String) × EdgeData)
  threshold : Rat
  maxAssociations : Nat
  decayRate : Rat
  deriving DecidableEq

/-- A freshly constructed network with the given configuration and no saved
state on disk. -/
def anInit (threshold : Rat) (maxAssociations : Nat) (decayRate : Rat) :
    AssociationNetwork :=
  { nodes := [], edges := [], threshold := threshold,
    maxAssociations := maxAssociations, decayRate := decayRate }

/-- The default configuration of `AssociationNetwork.__init__`:
`association_threshold=0.5`, `max_associations=1000`, `decay_rate=0.01`. -/
def anDefault : AssociationNetwork :=
  anInit (1 / 2) 1000 (1 / 100)

/-- `graph.has_node`. -/
def hasNode (net : AssociationNetwork) (c : String) : Bool :=
  net.nodes.any fun p => p.1 = c

/-- Whether an undirected edge joins `a` and `b` (`graph.has_edge`). -/
def edgeJoins (key : String × String) (a b : String) : Bool :=
  (key.1 = a ∧ key.2 = b) ∨ (key.1 = b ∧ key.2 = a)

/-- Lookup of the undirected edge `(a, b)`. -/
def edgeLookup (net : AssociationNetwork) (a b : String) : Option EdgeData :=
  (net.edges.find? fun e => edgeJoins e.1 a b).map Prod.snd

/-- In-place update of the undirected edge `(a, b)`. -/
def edgeUpdate (edges : List ((String × String) × EdgeData)) (a b : String)
    (d : EdgeData) : List ((String × String) × EdgeData) :=
  edges.map fun e => if edgeJoins e.1 a b then (e.1, d) else e

/-- Add the node with fresh attributes if it is not present yet
(the `add_node` calls of `create_association`). -/
def ensureNode (net : AssociationNetwork) (now : Rat) (c : String) :
    AssociationNetwork :=
  if hasNode net c then net
  else
    { net with
      nodes := net.nodes ++
        [(c, { creationTime := now, activationCount := 0, lastActivation := now })] }

/-- `_activate_concept`: bump the activation statistics of a node. -/
def activateConceptStats (net : AssociationNetwork) (now : Rat) (c : String) :
    AssociationNetwork :=
  if hasNode net c then
    { net with
      nodes := net.nodes.map fun p =>
        if p.1 = c
        then (p.1, { p.2 with activationCount := p.2.activationCount + 1,
                              lastActivation := now })
        else p }
  else net

/-- `_apply_decay` with `np.exp` abstracted as `expf`:
`strength * expf(-decay_rate * time_since_reinforcement / 3600)`. -/
def applyDecay (expf : Rat → Rat) (decayRate : Rat) (d : EdgeData) (now : Rat) :
    Rat :=
  d.strength * expf (-decayRate * (now - d.lastReinforcement) / 3600)

/-- `_cleanup_weak_associations`: nothing below the limit; above it, drop the
`edge_count - max_associations + 100` edges that are weakest after decay
(stable sort by decayed strength ascending), then drop isolated nodes. -/
def cleanupWeakAssociations (expf : Rat → Rat) (net : AssociationNetwork)
    (now : Rat) : AssociationNetwork :=
  if net.edges.length ≤ net.maxAssociations then net
  else
    let toRemove := net.edges.length - net.maxAssociations + 100
    let sorted := sortedBy
      (fun a b => applyDecay expf net.decayRate a.2 now ≤ applyDecay expf net.decayRate b.2 now)
      net.edges
    let kept := sorted.drop toRemove
    let nodes1 := net.nodes.filter fun p =>
      kept.any fun e => e.1.1 = p.1 ∨ e.1.2 = p.1
    { net with edges := kept, nodes := nodes1 }

/-- `AssociationNetwork.create_association`. -/
def createAssociation (expf : Rat → Rat) (net : AssociationNetwork) (now : Rat)
    (c1 c2 : String) (strength : Rat) (atype : String) : AssociationNetwork :=
  let net1 := ensureNode (ensureNode net now c1) now c2
  let net2 :=
    match edgeLookup net1 c1 c2 with
    | some d =>
        { net1 with
          edges := edgeUpdate net1.edges c1 c2
            { d with strength := (d.strength + strength) / 2,
                     lastReinforcement := now,
                     reinforcementCount := d.reinforcementCount + 1 } }
    | none =>
        { net1 with
          edges := net1.edges ++
            [((c1, c2),
              { strength := strength, atype := atype, creationTime := now,
                lastReinforcement := now, reinforcementCount := 1 })] }
  cleanupWeakAssociations expf net2 now

/-- One entry of the list returned by `get_associations`. -/
structure AssocEntry where
  concept : String
  strength : Rat
  atype : String
  age : Rat
  reinforcements : Nat
  deriving DecidableEq

/-- The neighbours of `concept` with their edge data, in edge insertion
order. -/
def neighborsOf (net : AssociationNetwork) (concept : String) :
    List (String × EdgeData) :=
  net.edges.filterMap fun e =>
    if e.1.1 = concept then some (e.1.2, e.2)
    else if e.1.2 = concept then some (e.1.1, e.2)
    else none

/-- `AssociationNetwork.get_associations`: threshold-filtered decayed
neighbours sorted by strength descending (stable), truncated to
`max_results`; also bumps the concept's activation statistics. -/
def getAssociations (expf : Rat → Rat) (net : AssociationNetwork) (now : Rat)
    (concept : String) (maxResults : Nat) :
    List AssocEntry × AssociationNetwork :=
  if hasNode net concept then
    let net1 := activateConceptStats net now concept
    let assocs := (neighborsOf net concept).filterMap fun p =>
      let s := applyDecay expf net.decayRate p.2 now
      if net.threshold ≤ s then
        some { concept := p.1, strength := s, atype := p.2.atype,
               age := now - p.2.creationTime, reinforcements := p.2.reinforcementCount }
      else none
    ((sortedBy (fun a b => b.strength ≤ a.strength) assocs).take maxResults, net1)
  else ([], net)

/-- The seeding step of `activate_concepts`: concepts present in the graph
receive activation 1.0 and an activation-stat bump; absent concepts are
skipped. -/
def seedStepF (now : Rat) (acc : List (String × Rat) × AssociationNetwork)
    (c : String) : List (String × Rat) × AssociationNetwork :=
  if hasNode acc.2 c then
    (dinsert acc.1 c 1, activateConceptStats acc.2 now c)
  else acc

/-- The propagation step of `activate_concepts` for one seed: each
association neighbour receives `seed_activation * strength`, keeping the max
over multiple paths. -/
def propagateStepF (expf : Rat → Rat) (now : Rat)
    (levels : List (String × Rat))
    (acc : List (String × Rat) × AssociationNetwork) (c : String) :
    List (String × Rat) × AssociationNetwork :=
  match dlookup levels c with
  | none => acc
  | some lv =>
      let ga := getAssociations expf acc.2 now c 10
      (ga.1.foldl
        (fun (sec : List (String × Rat)) a =>
          let propagated := lv * a.strength
          match dlookup sec a.concept with
          | some cur => dinsert sec a.concept (max cur propagated)
          | none => dinsert sec a.concept propagated)
        acc.1, ga.2)

/-- The merge step of `activate_concepts`: a secondary activation enters the
final map at half strength only when its concept is not already present. -/
def mergeStepF (acc : List (String × Rat)) (p : String × Rat) :
    List (String × Rat) :=
  match dlookup acc p.1 with
  | some _ => acc
  | none => dinsert acc p.1 (p.2 * (1 / 2))

/-- `AssociationNetwork.activate_concepts`: seed the input concepts that are
graph nodes at 1.0 (bumping their stats), propagate one step through
`get_associations` keeping the max over multiple paths, then merge secondary
activations scaled by 0.5 for concepts that are not already seeds. -/
def activateConcepts (expf : Rat → Rat) (net : AssociationNetwork) (now : Rat)
    (concepts : List String) : List (String × Rat) × AssociationNetwork :=
  let seeded := concepts.foldl (seedStepF now) ([], net)
  let levels := seeded.1
  let secStep := concepts.foldl (propagateStepF expf now levels) ([], seeded.2)
  (secStep.1.foldl mergeStepF levels, secStep.2)

/-- Adjacency used by the path search: the neighbour labels of `c`, in edge
insertion order. -/
def adjacentLabels (net : AssociationNetwork) (c : String) : List String :=
  (neighborsOf net c).map Prod.fst

/-- All simple paths from `current` to `target` (each ending at the first
arrival at `target`), with explicit fuel; `fuel = nodes.length` suffices
because simple paths visit each node at most once. -/
def simplePathsAux (net : AssociationNetwork) (target : String) :
    Nat → String → List String → List (List String)
  | 0, _, _ => []
  | fuel + 1, current, visited =>
      if current = target then [[target]]
      else
        ((adjacentLabels net current).filter fun nb => ¬ visited.contains nb).flatMap
          fun nb =>
            (simplePathsAux net target fuel nb (current :: visited)).map
              fun p => current :: p

/-- All simple paths from `a` to `b` in the network. -/
def simplePaths (net : AssociationNetwork) (a b : String) : List (List String) :=
  simplePathsAux net b (net.nodes.length + 1) a []

/-- The Dijkstra edge weight of `find_path`:
`1 / max(decayed_strength, 0.01)`. -/
def edgeWeight (expf : Rat → Rat) (net : AssociationNetwork) (now : Rat)
    (a b : String) : Rat :=
  match edgeLookup net a b with
  | some d => 1 / max (applyDecay expf net.decayRate d now) (1 / 100)
  | none => 0

/-- Total weight of a path (sum of consecutive edge weights). -/
def pathWeight (expf : Rat → Rat) (net : AssociationNetwork) (now : Rat) :
    List String → Rat
  | a :: b :: rest => edgeWeight expf net now a b + pathWeight expf net now (b :: rest)
  | _ => 0

/-- A minimum-weight element of the candidate paths (first minimum wins),
modelling the path chosen by `nx.shortest_path(..., weight='weight')`. -/
def minWeightPath (expf : Rat → Rat) (net : AssociationNetwork) (now : Rat)
    (paths : List (List String)) : Option (List String) :=
  paths.foldl
    (fun acc p =>
      match acc with
      | none => some p
      | some best =>
          if pathWeight expf net now p < pathWeight expf net now best
          then some p else some best)
    none

/-- `AssociationNetwork.find_path`: the globally minimum-weight path under
`1/max(strength, 0.01)` edge weights, returned only when its node count is at
most `max_length + 1`; `none` when either endpoint is missing or no path
exists. -/
def findPath (expf : Rat → Rat) (net : AssociationNetwork) (now : Rat)
    (a b : String) (maxLength : Nat) : Option (List String) :=
  if hasNode net a ∧ hasNode net b then
    match minWeightPath expf net now (simplePaths net a b) with
    | none => none
    | some p => if p.length ≤ maxLength + 1 then some p else none
  else none

/-- Whether `p` is a chain of existing edges in the network (used to state
that a connecting path exists). -/
def isPathIn (net : AssociationNetwork) : List String → Bool
  | a :: b :: rest => (edgeLookup net a b).isSome ∧ isPathIn net (b :: rest)
  | _ => true

/-! ## memory_layer.py

`MemoryLayer.process` wraps the five subsystem calls of a turn in a single
`try/except`.  Each subsystem call is embedded as an `Except String` value
(its outcome: a raised exception or its contribution), and `processModel`
mirrors the control flow of `process`: the first raising call sends the whole
turn to the `except` handler, which returns only the error text and the
memory statistics. -/

/-- The success payload assembled by `process`. -/
structure ProcessOk (μ ν : Type) where
  currentEpisodeId : String
  workingMemoryContext : List ν
  relevantMemories : List μ
  activatedConcepts : List (String × Rat)
  deriving DecidableEq

/-- The dict returned by `MemoryLayer.process`: either the full result or the
error dict `{'error': ..., 'memory_stats': ...}` built by the `except`
branch.  `σ` is the type of the memory-stats payload. -/
inductive ProcessResult (μ ν σ : Type) where
  | ok : ProcessOk μ ν → σ → ProcessResult μ ν σ
  | err : String → σ → ProcessResult μ ν σ
  deriving DecidableEq

/-- `MemoryLayer.process`: sequential subsystem calls under one `try`; any
raise aborts the turn into the `except` branch. -/
def processModel {μ ν σ : Type}
    (storeWorking : Except String Unit)
    (createEpisode : Except String String)
    (updateAssociations : Except String Unit)
    (retrieveRelevant : Except String (List μ))
    (activateConceptsCall : Except String (List (String × Rat)))
    (workingContext : List ν) (stats : σ) : ProcessResult μ ν σ :=
  match storeWorking with
  | .error e => .err e stats
  | .ok _ =>
    match createEpisode with
    | .error e => .err e stats
    | .ok episodeId =>
      match updateAssociations with
      | .error e => .err e stats
      | .ok _ =>
        match retrieveRelevant with
        | .error e => .err e stats
        | .ok relevant =>
          match activateConceptsCall with
          | .error e => .err e stats
          | .ok activated =>
              .ok { currentEpisodeId := episodeId,
                    workingMemoryContext := workingContext,
                    relevantMemories := relevant,
                    activatedConcepts := activated } stats

/-- The episode id contained in a turn result (`none` for the error dict). -/
def ProcessResult.episodeIdOf {μ ν σ : Type} :
    ProcessResult μ ν σ → Option String
  | .ok r _ => some r.currentEpisodeId
  | .err _ _ => none

/-- The working-memory contribution contained in a turn result. -/
def ProcessResult.workingOf {μ ν σ : Type} :
    ProcessResult μ ν σ → Option (List ν)
  | .ok r _ => some r.workingMemoryContext
  | .err _ _ => none

/-! ## memory_manager.py (consolidation) -/

/-- What consolidation reads from an episode: its tags and, when the decoded
`content` dict has a `semantic_map` key, the concept names under it. -/
structure ConsolidationEpisode where
  tags : List String
  semanticConcepts : Option (List String)
  deriving DecidableEq

/-- A `tag_frequency` pattern of `_analyze_episode_patterns`. -/
structure TagPattern where
  tag : String
  episodes : List ConsolidationEpisode
  strength : Rat
  deriving DecidableEq

/-- One tag of one episode entering `tag_groups`: append the episode to the
tag's group (creating the group when absent). -/
def tagStepF (ep : ConsolidationEpisode)
    (d : List (String × List ConsolidationEpisode)) (tag : String) :
    List (String × List ConsolidationEpisode) :=
  match dlookup d tag with
  | some grp => dinsert d tag (grp ++ [ep])
  | none => dinsert d tag [ep]

/-- One episode entering `tag_groups`: its tags are processed in order. -/
def groupStepF (d : List (String × List ConsolidationEpisode))
    (ep : ConsolidationEpisode) : List (String × List ConsolidationEpisode) :=
  ep.tags.foldl (tagStepF ep) d

/-- The `tag_groups` dict: for each episode and each of its tags, append the
episode to that tag's group (insertion-ordered dict of lists). -/
def tagGroups (episodes : List ConsolidationEpisode) :
    List (String × List ConsolidationEpisode) :=
  episodes.foldl groupStepF []

/-- Specification-side description of a tag group (from the spec's words
"groups them by tag"): the episodes carrying tag `t`, in order. -/
def tagGroupOf (episodes : List ConsolidationEpisode) (t : String) :
    List ConsolidationEpisode :=
  episodes.filter fun e => decide (t ∈ e.tags)

/-- `MemoryManager._analyze_episode_patterns`: every tag group with at least
3 episodes becomes a pattern with `strength = group_size / episode_count`. -/
def analyzeEpisodePatterns (episodes : List ConsolidationEpisode) :
    List TagPattern :=
  (tagGroups episodes).filterMap fun g =>
    if 3 ≤ g.2.length then
      some { tag := g.1, episodes := g.2,
             strength := (g.2.length : Rat) / (episodes.length : Rat) }
    else none

/-- The concept-name list `_reinforce_pattern_associations` collects from the
episodes of a pattern. -/
def patternConcepts (episodes : List ConsolidationEpisode) : List String :=
  episodes.flatMap fun ep => ep.semanticConcepts.getD []

/-- All ordered pairs `(l[i], l[j])` with `i < j`, as produced by the nested
`for i, c1 in enumerate(l): for c2 in l[i+1:]` loops. -/
def orderedPairs {σ : Type} : List σ → List (σ × σ)
  | [] => []
  | x :: xs => (xs.map fun y => (x, y)) ++ orderedPairs xs

/-- One `create_association` call recorded by consolidation:
`(concept1, concept2, strength, association_type)`. -/
def reinforcementCalls (p : TagPattern) :
    List (String × String × Rat × String) :=
  (orderedPairs (patternConcepts p.episodes)).map fun q =>
    (q.1, q.2, p.strength * (1 / 2), "pattern_" ++ p.tag)

/-- `_perform_memory_consolidation` restricted to its data flow into the
association network: the `create_association` calls made for the patterns of
the most recent 50 episodes. -/
def consolidationCalls {γ δ : Type}
    (episodeView : EpisodeRow γ δ → ConsolidationEpisode)
    (em : EpisodicMemory γ δ) : List (String × String × Rat × String) :=
  (analyzeEpisodePatterns ((recentEpisodes em 50).map episodeView)).flatMap
    reinforcementCalls

/-- `_apply_decay` over the reals with the genuine exponential:
`strength * exp(-decay_rate * (now - last_reinforcement) / 3600)`.
(`Real.exp` is transcendental, hence this definition is the one
non-executable embedding in the file.) -/
noncomputable def applyDecayReal (decayRate strength lastReinforcement now : ℝ) : ℝ :=
  strength * Real.exp (-decayRate * (now - lastReinforcement) / 3600)

/-! ## Derived definitions used by the theorems -/

/-- One step of `runCacheCalls`: a single `store` with its call data
`(now, key, content, importance)`. -/
def cacheStep {α : Type} (wm : WorkingMemory α) (c : Rat × String × α × Rat) :
    WorkingMemory α :=
  wmStore wm c.1 c.2.1 c.2.2.1 c.2.2.2

/-- A sequence of `WorkingMemory.store` calls from a fresh cache. -/
def runCacheCalls (α : Type) (cap : Nat) (calls : List (Rat × String × α × Rat)) :
    WorkingMemory α :=
  calls.foldl cacheStep (wmInit α cap)

/-- One step of `runEpisodicCalls`: a single `store_episode` call
`(now, id, content, context, valence, importance, tags)`. -/
def episodicStep {γ δ : Type} (em : EpisodicMemory γ δ)
    (c : Rat × String × γ × δ × Rat × Rat × List String) : EpisodicMemory γ δ :=
  storeEpisode em c.1 c.2.1 c.2.2.1 c.2.2.2.1 c.2.2.2.2.1 c.2.2.2.2.2.1 c.2.2.2.2.2.2

/-- A sequence of `store_episode` calls from a fresh store. -/
def runEpisodicCalls (γ δ : Type) (maxEpisodes : Nat)
    (calls : List (Rat × String × γ × δ × Rat × Rat × List String)) :
    EpisodicMemory γ δ :=
  calls.foldl episodicStep (emInit γ δ maxEpisodes)

/-- One step of `runGraphCalls`: a single `create_association` call
`(now, concept1, concept2, strength, type)`. -/
def graphStep (expf : Rat → Rat) (net : AssociationNetwork)
    (c : Rat × String × String × Rat × String) : AssociationNetwork :=
  createAssociation expf net c.1 c.2.1 c.2.2.1 c.2.2.2.1 c.2.2.2.2

/-- A sequence of `create_association` calls from a fresh network. -/
def runGraphCalls (expf : Rat → Rat) (threshold : Rat) (maxAssociations : Nat)
    (decayRate : Rat) (calls : List (Rat × String × String × Rat × String)) :
    AssociationNetwork :=
  calls.foldl (graphStep expf) (anInit threshold maxAssociations decayRate)

/-- The `create_association` body before the cleanup call: ensure both nodes,
then create or reinforce the edge. -/
def createAssociationRaw (net : AssociationNetwork) (now : Rat)
    (c1 c2 : String) (strength : Rat) (atype : String) : AssociationNetwork :=
  let net1 := ensureNode (ensureNode net now c1) now c2
  match edgeLookup net1 c1 c2 with
  | some d =>
      { net1 with
        edges := edgeUpdate net1.edges c1 c2
          { d with strength := (d.strength + strength) / 2,
                   lastReinforcement := now,
                   reinforcementCount := d.reinforcementCount + 1 } }
  | none =>
      { net1 with
        edges := net1.edges ++
          [((c1, c2),
            { strength := strength, atype := atype, creationTime := now,
              lastReinforcement := now, reinforcementCount := 1 })] }

/-- The scored deque of `_evict_least_important`: each present key paired
with its eviction score, in insertion (deque) order. -/
def scoredItems {α : Type} (m : List (String × MemoryItem α)) (now : Rat)
    (keys : List String) : List (Rat × String) :=
  keys.filterMap fun k => (dlookup m k).map fun it => (evictScore it now, k)

/-- First strict minimum of a scan starting from `p` (the accumulator shape
of the selection loop): among equal scores the earliest element wins. -/
def firstMin (p : Rat × String) : List (Rat × String) → Rat × String
  | [] => p
  | q :: qs => if q.1 < p.1 then firstMin q qs else firstMin p qs

/-- All importance values held in the cache lie in `[0, 1]`. -/
def cacheInRange {α : Type} (wm : WorkingMemory α) : Prop :=
  ∀ p ∈ wm.itemMap, 0 ≤ p.2.importance ∧ p.2.importance ≤ 1

/-- All importance values lie in `[0, 1]` and all valence values in
`[-1, 1]` across the episodic rows. -/
def emInRange {γ δ : Type} (em : EpisodicMemory γ δ) : Prop :=
  ∀ r ∈ em.rows,
    (0 ≤ r.importance ∧ r.importance ≤ 1) ∧
    (-1 ≤ r.emotionalValence ∧ r.emotionalValence ≤ 1)

/-- All association strengths held in the network lie in `[0, 1]`. -/
def netInRange (net : AssociationNetwork) : Prop :=
  ∀ e ∈ net.edges, 0 ≤ e.2.strength ∧ e.2.strength ≤ 1

/-- The row built by `store_episode` before persisting. -/
def mkEpisodeRow (γ δ : Type) (now : Rat) (episodeId : String) (content : γ)
    (context : δ) (emotionalValence importance : Rat) (tags : List String) :
    EpisodeRow γ δ :=
  { id := episodeId, content := content, timestamp := now, context := context,
    emotionalValence := emotionalValence, importance := importance,
    tags := tags, accessCount := 0, lastAccess := 0 }

/-- The two-association network of the activation scenario:
`create_association("dog","animal",0.9)` then
`create_association("dog","pet",0.7)` on a fresh default network, both at
time 0. -/
def dogNet (expf : Rat → Rat) : AssociationNetwork :=
  createAssociation expf
    (createAssociation expf anDefault 0 "dog" "animal" (9 / 10) "general")
    0 "dog" "pet" (7 / 10) "general"

/-- The path-bound scenario network: a weak direct edge `a - b` (strength
0.1) and a strong three-hop chain `a - c - d - b` (strength 1 each), all
created at time 0 on a fresh default network. -/
def chainNet (expf : Rat → Rat) : AssociationNetwork :=
  createAssociation expf
    (createAssociation expf
      (createAssociation expf
        (createAssociation expf anDefault 0 "a" "b" (1 / 10) "general")
        0 "a" "c" 1 "general")
      0 "c" "d" 1 "general")
    0 "d" "b" 1 "general"

/-! ## Theorems -/

theorem dequeAppend_length_le (cap : Nat) (xs : List String) (k : String) :
    (dequeAppend cap xs k).length ≤ cap := by
  simp only [dequeAppend, List.length_drop]
  omega

theorem wmEvict_capacity {α : Type} (wm : WorkingMemory α) (now : Rat) :
    (wmEvict wm now).capacity = wm.capacity := by
  unfold wmEvict
  split
  · rfl
  · split
    · rfl
    · split <;> rfl

theorem wmEvict_items_length_le {α : Type} (wm : WorkingMemory α) (now : Rat) :
    (wmEvict wm now).items.length ≤ wm.items.length := by
  unfold wmEvict
  split
  · exact Nat.le_refl _
  · split
    · exact Nat.le_refl _
    · split
      · exact Nat.le_refl _
      · exact List.length_erase_le _ _

theorem wmStore_capacity {α : Type} (wm : WorkingMemory α) (now : Rat)
    (key : String) (content : α) (imp : Rat) :
    (wmStore wm now key content imp).capacity = wm.capacity := by
  unfold wmStore
  split
  · rfl
  · simp only
    split
    · exact wmEvict_capacity wm now
    · rfl

theorem wmStore_size_le {α : Type} (wm : WorkingMemory α) (now : Rat)
    (key : String) (content : α) (imp : Rat)
    (h : wm.items.length ≤ wm.capacity) :
    (wmStore wm now key content imp).items.length ≤ wm.capacity := by
  unfold wmStore
  split
  · exact h
  · simp only
    split
    · calc (dequeAppend (wmEvict wm now).capacity (wmEvict wm now).items key).length
          ≤ (wmEvict wm now).capacity := dequeAppend_length_le _ _ _
        _ = wm.capacity := wmEvict_capacity wm now
    · exact dequeAppend_length_le _ _ _

theorem insertSorted_length {σ : Type} (le : σ → σ → Bool) (x : σ)
    (l : List σ) : (insertSorted le x l).length = l.length + 1 := by
  induction l with
  | nil => rfl
  | cons y ys ih =>
      unfold insertSorted
      split
      · simp [ih]
      · simp

theorem sortedBy_length {σ : Type} (le : σ → σ → Bool) (l : List σ) :
    (sortedBy le l).length = l.length := by
  induction l with
  | nil => rfl
  | cons x xs ih =>
      unfold sortedBy
      rw [insertSorted_length, ih, List.length_cons]

theorem emCleanup_count_le {γ δ : Type} (em : EpisodicMemory γ δ) :
    emCount (emCleanup em) ≤ em.maxEpisodes := by
  unfold emCleanup emCount
  split
  · assumption
  · simp only [List.length_drop, sortedBy_length]
    omega

theorem emCleanup_maxEpisodes {γ δ : Type} (em : EpisodicMemory γ δ) :
    (emCleanup em).maxEpisodes = em.maxEpisodes := by
  unfold emCleanup
  split <;> rfl

/-- After any single `store_episode` on any store state, the row count is at
most `max_episodes` (the cleanup re-establishes the bound unconditionally). -/
theorem storeEpisode_count_le {γ δ : Type} (em : EpisodicMemory γ δ)
    (now : Rat) (episodeId : String) (content : γ) (context : δ)
    (valence imp : Rat) (tags : List String) :
    emCount (storeEpisode em now episodeId content context valence imp tags)
      ≤ em.maxEpisodes :=
  emCleanup_count_le _

theorem storeEpisode_maxEpisodes {γ δ : Type} (em : EpisodicMemory γ δ)
    (now : Rat) (episodeId : String) (content : γ) (context : δ)
    (valence imp : Rat) (tags : List String) :
    (storeEpisode em now episodeId content context valence imp tags).maxEpisodes
      = em.maxEpisodes :=
  emCleanup_maxEpisodes _

theorem cleanupWeak_edges_le (expf : Rat → Rat) (net : AssociationNetwork)
    (now : Rat) :
    (cleanupWeakAssociations expf net now).edges.length ≤ net.maxAssociations := by
  unfold cleanupWeakAssociations
  split
  · assumption
  · simp only [List.length_drop, sortedBy_length]
    omega

theorem ensureNode_config (net : AssociationNetwork) (now : Rat) (c : String) :
    (ensureNode net now c).maxAssociations = net.maxAssociations ∧
    (ensureNode net now c).edges = net.edges := by
  unfold ensureNode
  split <;> exact ⟨rfl, rfl⟩

theorem cleanupWeak_maxAssociations (expf : Rat → Rat)
    (net : AssociationNetwork) (now : Rat) :
    (cleanupWeakAssociations expf net now).maxAssociations
      = net.maxAssociations := by
  unfold cleanupWeakAssociations
  split <;> rfl

theorem createAssociation_eq_raw (expf : Rat → Rat) (net : AssociationNetwork)
    (now : Rat) (c1 c2 : String) (strength : Rat) (atype : String) :
    createAssociation expf net now c1 c2 strength atype
      = cleanupWeakAssociations expf
          (createAssociationRaw net now c1 c2 strength atype) now :=
  rfl

theorem createAssociationRaw_maxAssociations (net : AssociationNetwork)
    (now : Rat) (c1 c2 : String) (strength : Rat) (atype : String) :
    (createAssociationRaw net now c1 c2 strength atype).maxAssociations
      = net.maxAssociations := by
  have h2 := (ensureNode_config (ensureNode net now c1) now c2).1
  have h1 := (ensureNode_config net now c1).1
  simp only [createAssociationRaw]
  split <;> exact h2.trans h1

theorem createAssociation_maxAssociations (expf : Rat → Rat)
    (net : AssociationNetwork) (now : Rat) (c1 c2 : String) (strength : Rat)
    (atype : String) :
    (createAssociation expf net now c1 c2 strength atype).maxAssociations
      = net.maxAssociations := by
  rw [createAssociation_eq_raw, cleanupWeak_maxAssociations,
    createAssociationRaw_maxAssociations]

/-- After any single `create_association` on any network state, the edge count
is at most `max_associations`. -/
theorem createAssociation_edges_le (expf : Rat → Rat)
    (net : AssociationNetwork) (now : Rat) (c1 c2 : String) (strength : Rat)
    (atype : String) :
    (createAssociation expf net now c1 c2 strength atype).edges.length
      ≤ net.maxAssociations := by
  rw [createAssociation_eq_raw]
  calc (cleanupWeakAssociations expf
          (createAssociationRaw net now c1 c2 strength atype) now).edges.length
      ≤ (createAssociationRaw net now c1 c2 strength atype).maxAssociations :=
        cleanupWeak_edges_le expf _ now
    _ = net.maxAssociations := createAssociationRaw_maxAssociations _ _ _ _ _ _

theorem runCacheCalls_invariant {α : Type} (cap : Nat)
    (calls : List (Rat × String × α × Rat)) (wm : WorkingMemory α)
    (hcap : wm.capacity = cap) (h : wm.items.length ≤ cap) :
    (calls.foldl cacheStep wm).items.length ≤ cap := by
  induction calls generalizing wm with
  | nil => exact h
  | cons c rest ih =>
      refine ih (cacheStep wm c) ?_ ?_
      · exact (wmStore_capacity wm c.1 c.2.1 c.2.2.1 c.2.2.2).trans hcap
      · have := wmStore_size_le wm c.1 c.2.1 c.2.2.1 c.2.2.2 (hcap ▸ h)
        exact hcap ▸ this

theorem runEpisodicCalls_invariant {γ δ : Type} (maxE : Nat)
    (calls : List (Rat × String × γ × δ × Rat × Rat × List String))
    (em : EpisodicMemory γ δ) (hmax : em.maxEpisodes = maxE)
    (h : emCount em ≤ maxE) :
    emCount (calls.foldl episodicStep em) ≤ maxE := by
  induction calls generalizing em with
  | nil => exact h
  | cons c rest ih =>
      refine ih (episodicStep em c) ?_ ?_
      · exact (storeEpisode_maxEpisodes em c.1 c.2.1 c.2.2.1 c.2.2.2.1
          c.2.2.2.2.1 c.2.2.2.2.2.1 c.2.2.2.2.2.2).trans hmax
      · exact hmax ▸ storeEpisode_count_le em c.1 c.2.1 c.2.2.1 c.2.2.2.1
          c.2.2.2.2.1 c.2.2.2.2.2.1 c.2.2.2.2.2.2

theorem runGraphCalls_invariant (expf : Rat → Rat) (maxA : Nat)
    (calls : List (Rat × String × String × Rat × String))
    (net : AssociationNetwork) (hmax : net.maxAssociations = maxA)
    (h : net.edges.length ≤ maxA) :
    (calls.foldl (graphStep expf) net).edges.length ≤ maxA := by
  induction calls generalizing net with
  | nil => exact h
  | cons c rest ih =>
      refine ih (graphStep expf net c) ?_ ?_
      · exact (createAssociation_maxAssociations expf net c.1 c.2.1 c.2.2.1
          c.2.2.2.1 c.2.2.2.2).trans hmax
      · exact hmax ▸ createAssociation_edges_le expf net c.1 c.2.1 c.2.2.1
          c.2.2.2.1 c.2.2.2.2

/-- C1 (confirmed).  Capacity invariant: after every initial segment of any sequence
of store calls, the working-memory cache holds at most `capacity` items, the
episodic store holds at most `max_episodes` rows, and the association network
holds at most `max_associations` edges. -/
theorem capacity_invariant :
    (∀ (α : Type) (cap : Nat) (calls : List (Rat × String × α × Rat)) (i : Nat),
      wmSize (runCacheCalls α cap (calls.take i)) ≤ cap) ∧
    (∀ (γ δ : Type) (maxE : Nat)
      (calls : List (Rat × String × γ × δ × Rat × Rat × List String)) (i : Nat),
      emCount (runEpisodicCalls γ δ maxE (calls.take i)) ≤ maxE) ∧
    (∀ (expf : Rat → Rat) (threshold : Rat) (maxA : Nat) (decayRate : Rat)
      (calls : List (Rat × String × String × Rat × String)) (i : Nat),
      (runGraphCalls expf threshold maxA decayRate (calls.take i)).edges.length
        ≤ maxA) := by
  refine ⟨fun α cap calls i => ?_, fun γ δ maxE calls i => ?_,
    fun expf th maxA dr calls i => ?_⟩
  · exact runCacheCalls_invariant cap (calls.take i) (wmInit α cap) rfl
      (Nat.zero_le cap)
  · exact runEpisodicCalls_invariant maxE (calls.take i) (emInit γ δ maxE) rfl
      (Nat.zero_le maxE)
  · exact runGraphCalls_invariant expf maxA (calls.take i)
      (anInit th maxA dr) rfl (Nat.zero_le maxA)

/-- C7 (confirmed).  Decay monotonicity: with a nonnegative base strength and
a nonnegative decay rate, the decayed effective strength of a fixed
association is antitone in the query time. -/
theorem decay_monotone (decayRate strength t0 t1 t2 : ℝ)
    (hs : 0 ≤ strength) (hr : 0 ≤ decayRate) (h12 : t1 < t2) :
    applyDecayReal decayRate strength t0 t2
      ≤ applyDecayReal decayRate strength t0 t1 := by
  unfold applyDecayReal
  refine mul_le_mul_of_nonneg_left ?_ hs
  refine Real.exp_le_exp.mpr ?_
  have h : decayRate * (t1 - t0) ≤ decayRate * (t2 - t0) := by nlinarith
  linarith

/-- Witness for C7 at `decay_rate = 1/100`, `strength = 1`, reinforcement
time `0`, query times `0 < 1`. -/
theorem decay_monotone_witness :
    applyDecayReal (1 / 100) 1 0 1 ≤ applyDecayReal (1 / 100) 1 0 0 :=
  decay_monotone (1 / 100) 1 0 0 1 (by norm_num) (by norm_num) (by norm_num)

/-! ### Association-list (Python dict) lemmas -/

theorem dlookup_dinsert_self {β : Type} (d : List (String × β)) (k : String)
    (v : β) : dlookup (dinsert d k v) k = some v := by
  induction d with
  | nil => simp [dinsert, dlookup]
  | cons p rest ih =>
      unfold dinsert
      split
      · simp only [dlookup]
        split
        · rfl
        · simp_all
      · simp only [dlookup]
        split
        · simp_all
        · exact ih

theorem dlookup_dinsert_ne {β : Type} (d : List (String × β)) (k k2 : String)
    (v : β) (h : k2 ≠ k) : dlookup (dinsert d k v) k2 = dlookup d k2 := by
  induction d with
  | nil => simp [dinsert, dlookup, Ne.symm h]
  | cons p rest ih =>
      unfold dinsert
      split
      · simp only [dlookup]
        split
        · simp_all
        · rfl
      · simp only [dlookup]
        split
        · rfl
        · exact ih

theorem dlookup_derase_ne {β : Type} (d : List (String × β)) (k k2 : String)
    (h : k2 ≠ k) : dlookup (derase d k) k2 = dlookup d k2 := by
  induction d with
  | nil => rfl
  | cons p rest ih =>
      unfold derase
      split
      · simp only [dlookup]
        split
        · simp_all
        · rfl
      · simp only [dlookup]
        split
        · rfl
        · exact ih

theorem dlookup_eq_none_of_not_mem_keys {β : Type} (d : List (String × β))
    (k : String) (h : k ∉ d.map Prod.fst) : dlookup d k = none := by
  induction d with
  | nil => rfl
  | cons p rest ih =>
      simp only [List.map_cons, List.mem_cons] at h
      push_neg at h
      simp only [dlookup]
      split
      · rename_i hc
        exact absurd hc.symm h.1
      · exact ih h.2

theorem dlookup_derase_self {β : Type} (d : List (String × β)) (k : String)
    (hnd : (d.map Prod.fst).Nodup) : dlookup (derase d k) k = none := by
  induction d with
  | nil => rfl
  | cons p rest ih =>
      simp only [List.map_cons, List.nodup_cons] at hnd
      unfold derase
      split
      · rename_i hk
        subst hk
        exact dlookup_eq_none_of_not_mem_keys rest p.1 hnd.1
      · simp only [dlookup]
        split
        · simp_all
        · exact ih hnd.2

theorem mem_of_mem_dinsert {β : Type} (d : List (String × β)) (k : String)
    (v : β) (p : String × β) (h : p ∈ dinsert d k v) :
    p ∈ d ∨ p = (k, v) := by
  induction d with
  | nil => simp [dinsert] at h; simp [h]
  | cons q rest ih =>
      unfold dinsert at h
      split at h
      · rcases List.mem_cons.mp h with h1 | h1
        · rename_i hq
          right
          rw [h1]
          simp_all
        · left
          exact List.mem_cons_of_mem q h1
      · rcases List.mem_cons.mp h with h1 | h1
        · left
          exact h1 ▸ List.mem_cons_self q rest
        · rcases ih h1 with h2 | h2
          · exact Or.inl (List.mem_cons_of_mem q h2)
          · exact Or.inr h2

theorem mem_of_mem_derase {β : Type} (d : List (String × β)) (k : String)
    (p : String × β) (h : p ∈ derase d k) : p ∈ d := by
  induction d with
  | nil => simp [derase] at h
  | cons q rest ih =>
      unfold derase at h
      split at h
      · exact List.mem_cons_of_mem q h
      · rcases List.mem_cons.mp h with h1 | h1
        · exact h1 ▸ List.mem_cons_self q rest
        · exact List.mem_cons_of_mem q (ih h1)

theorem mem_of_mem_insertSorted {σ : Type} (le : σ → σ → Bool) (x : σ)
    (l : List σ) (y : σ) (h : y ∈ insertSorted le x l) : y = x ∨ y ∈ l := by
  induction l with
  | nil => simp [insertSorted] at h; simp [h]
  | cons z zs ih =>
      unfold insertSorted at h
      split at h
      · rcases List.mem_cons.mp h with h1 | h1
        · exact Or.inr (h1 ▸ List.mem_cons_self z zs)
        · rcases ih h1 with h2 | h2
          · exact Or.inl h2
          · exact Or.inr (List.mem_cons_of_mem z h2)
      · rcases List.mem_cons.mp h with h1 | h1
        · exact Or.inl h1
        · exact Or.inr h1

theorem mem_of_mem_sortedBy {σ : Type} (le : σ → σ → Bool) (l : List σ)
    (y : σ) (h : y ∈ sortedBy le l) : y ∈ l := by
  induction l with
  | nil => simp [sortedBy] at h
  | cons z zs ih =>
      unfold sortedBy at h
      rcases mem_of_mem_insertSorted le z (sortedBy le zs) y h with h1 | h1
      · exact h1 ▸ List.mem_cons_self z zs
      · exact List.mem_cons_of_mem z (ih h1)

/-! ### C2: failure semantics of MemoryLayer.process -/

/-- C2 counterexample.  With exactly one failing subsystem call (the
working-memory store raising "boom") while every other stage succeeds (the
episode stage would produce id "ep1"), `process` returns the error dict: the
episode id and the working-memory contribution are NOT in the result, so a
single failing source does abort the whole turn's result. -/
theorem process_isolation_cex :
    processModel (μ := Unit) (ν := Unit) (σ := Unit)
        (.error "boom") (.ok "ep1") (.ok ()) (.ok []) (.ok []) [()] ()
      = .err "boom" () ∧
    (processModel (μ := Unit) (ν := Unit) (σ := Unit)
        (.error "boom") (.ok "ep1") (.ok ()) (.ok []) (.ok []) [()] ()).episodeIdOf
      = none ∧
    (processModel (μ := Unit) (ν := Unit) (σ := Unit)
        (.error "boom") (.ok "ep1") (.ok ()) (.ok []) (.ok []) [()] ()).workingOf
      = none :=
  ⟨rfl, rfl, rfl⟩

/-- C2 (corrected).  `process` wraps the whole turn in one `try/except`: the
first subsystem call that raises sends the turn to the handler, which returns
only the error text and the memory stats (all other contributions are
dropped); the full result is returned only when no call raises. -/
theorem process_single_try {μ ν σ : Type} (wc : List ν) (stats : σ) :
    (∀ (e : String) s2 s3 s4 s5,
      processModel (μ := μ) (ν := ν) (σ := σ) (.error e) s2 s3 s4 s5 wc stats
        = .err e stats) ∧
    (∀ (e : String) s3 s4 s5,
      processModel (μ := μ) (ν := ν) (σ := σ) (.ok ()) (.error e) s3 s4 s5 wc stats
        = .err e stats) ∧
    (∀ (e : String) epid s4 s5,
      processModel (μ := μ) (ν := ν) (σ := σ) (.ok ()) (.ok epid) (.error e) s4 s5
          wc stats
        = .err e stats) ∧
    (∀ (e : String) epid s5,
      processModel (μ := μ) (ν := ν) (σ := σ) (.ok ()) (.ok epid) (.ok ())
          (.error e) s5 wc stats
        = .err e stats) ∧
    (∀ (e : String) epid rel,
      processModel (μ := μ) (ν := ν) (σ := σ) (.ok ()) (.ok epid) (.ok ())
          (.ok rel) (.error e) wc stats
        = .err e stats) ∧
    (∀ epid rel act,
      processModel (μ := μ) (ν := ν) (σ := σ) (.ok ()) (.ok epid) (.ok ())
          (.ok rel) (.ok act) wc stats
        = .ok { currentEpisodeId := epid, workingMemoryContext := wc,
                relevantMemories := rel, activatedConcepts := act } stats) :=
  ⟨fun _ _ _ _ _ => rfl, fun _ _ _ _ => rfl, fun _ _ _ _ => rfl,
   fun _ _ _ => rfl, fun _ _ _ => rfl, fun _ _ _ => rfl⟩

/-! ### C3: no clamping in the store operations -/

/-- C3 counterexample.  None of the three store operations clamp:
`WorkingMemory.store` persists importance 2, `create_association` persists
strength 2, and `store_episode` persists valence 2 and importance 3 — all
outside the claimed `[0,1]` / `[-1,1]` ranges. -/
theorem no_clamping_cex :
    (dlookup (wmStore (wmInit Nat 7) 0 "k" 0 2).itemMap "k").map
        (fun it => it.importance) = some 2 ∧
    ¬ ((2 : Rat) ≤ 1) ∧
    (edgeLookup (createAssociation (fun _ => 1) anDefault 0 "a" "b" 2 "t")
        "a" "b").map (fun d => d.strength) = some 2 ∧
    ((retrieveEpisode (storeEpisode (emInit Nat Nat 1000) 0 "e" 0 0 2 3 [])
        0 "e").1).map (fun r => (r.emotionalValence, r.importance))
      = some (2, 3) := by
  refine ⟨?_, ?_, ?_, ?_⟩ <;> with_unfolding_all decide

theorem cacheInRange_evict {α : Type} (wm : WorkingMemory α) (now : Rat)
    (h : cacheInRange wm) : cacheInRange (wmEvict wm now) := by
  unfold wmEvict
  split
  · exact h
  · split
    · exact h
    · split
      · exact h
      · intro p hp
        exact h p (mem_of_mem_derase _ _ p hp)

theorem cacheInRange_store {α : Type} (wm : WorkingMemory α) (now : Rat)
    (key : String) (c : α) (imp : Rat) (h : cacheInRange wm)
    (h0 : 0 ≤ imp) (h1 : imp ≤ 1) :
    cacheInRange (wmStore wm now key c imp) := by
  unfold wmStore
  split
  · intro p hp
    rcases mem_of_mem_dinsert _ _ _ p hp with h2 | h2
    · exact h p h2
    · rw [h2]
      exact ⟨h0, h1⟩
  · simp only
    intro p hp
    have hwm1 : cacheInRange (if wm.capacity ≤ wm.items.length
        then wmEvict wm now else wm) := by
      split
      · exact cacheInRange_evict wm now h
      · exact h
    rcases mem_of_mem_dinsert _ _ _ p hp with h2 | h2
    · exact hwm1 p h2
    · rw [h2]
      exact ⟨h0, h1⟩

theorem mem_of_mem_upsertRow {γ δ : Type} (rows : List (EpisodeRow γ δ))
    (r r2 : EpisodeRow γ δ) (h : r2 ∈ upsertRow rows r) :
    r2 ∈ rows ∨ r2 = r := by
  induction rows with
  | nil => simp [upsertRow] at h; simp [h]
  | cons q rest ih =>
      unfold upsertRow at h
      split at h
      · rcases List.mem_cons.mp h with h1 | h1
        · exact Or.inr h1
        · exact Or.inl (List.mem_cons_of_mem q h1)
      · rcases List.mem_cons.mp h with h1 | h1
        · exact Or.inl (h1 ▸ List.mem_cons_self q rest)
        · rcases ih h1 with h2 | h2
          · exact Or.inl (List.mem_cons_of_mem q h2)
          · exact Or.inr h2

theorem emInRange_cleanup {γ δ : Type} (em : EpisodicMemory γ δ)
    (h : emInRange em) : emInRange (emCleanup em) := by
  unfold emCleanup
  split
  · exact h
  · intro r hr
    exact h r (mem_of_mem_sortedBy _ _ r (List.mem_of_mem_drop hr))

theorem emInRange_store {γ δ : Type} (em : EpisodicMemory γ δ) (now : Rat)
    (episodeId : String) (content : γ) (context : δ) (v imp : Rat)
    (tags : List String) (h : emInRange em) (h0 : 0 ≤ imp) (h1 : imp ≤ 1)
    (h2 : -1 ≤ v) (h3 : v ≤ 1) :
    emInRange (storeEpisode em now episodeId content context v imp tags) := by
  refine emInRange_cleanup _ (fun r hr => ?_)
  rcases mem_of_mem_upsertRow _ _ r hr with h4 | h4
  · exact h r h4
  · rw [h4]
    exact ⟨⟨h0, h1⟩, ⟨h2, h3⟩⟩

theorem edgeLookup_mem (net : AssociationNetwork) (a b : String)
    (d : EdgeData) (h : edgeLookup net a b = some d) :
    ∃ key, (key, d) ∈ net.edges := by
  unfold edgeLookup at h
  rcases Option.map_eq_some'.mp h with ⟨e, he, hed⟩
  subst hed
  exact ⟨e.1, by simpa using List.mem_of_find?_eq_some he⟩

theorem edgeLookup_eq_of_edges_eq (n1 n2 : AssociationNetwork) (a b : String)
    (h : n1.edges = n2.edges) : edgeLookup n1 a b = edgeLookup n2 a b := by
  unfold edgeLookup
  rw [h]

theorem netInRange_cleanup (expf : Rat → Rat) (net : AssociationNetwork)
    (now : Rat) (h : netInRange net) :
    netInRange (cleanupWeakAssociations expf net now) := by
  unfold cleanupWeakAssociations
  split
  · exact h
  · intro e he
    exact h e (mem_of_mem_sortedBy _ _ e (List.mem_of_mem_drop he))

theorem netInRange_createRaw (net : AssociationNetwork) (now : Rat)
    (c1 c2 : String) (s : Rat) (ty : String) (h : netInRange net)
    (h0 : 0 ≤ s) (h1 : s ≤ 1) :
    netInRange (createAssociationRaw net now c1 c2 s ty) := by
  have hens : (ensureNode (ensureNode net now c1) now c2).edges = net.edges :=
    ((ensureNode_config _ now c2).2).trans ((ensureNode_config net now c1).2)
  simp only [createAssociationRaw]
  split
  · rename_i d hd
    rw [edgeLookup_eq_of_edges_eq _ net c1 c2 hens] at hd
    rcases edgeLookup_mem net c1 c2 d hd with ⟨k, hk⟩
    have hd2 := h (k, d) hk
    intro e he
    simp only [edgeUpdate, hens, List.mem_map] at he
    rcases he with ⟨e0, he0, hee⟩
    split at hee
    · rw [← hee]
      refine ⟨?_, ?_⟩
      · simp only
        have := hd2.1
        linarith
      · simp only
        have := hd2.2
        linarith
    · rw [← hee]
      exact h e0 he0
  · intro e he
    simp only [hens] at he
    rcases List.mem_append.mp he with h2 | h2
    · exact h e h2
    · simp only [List.mem_singleton] at h2
      rw [h2]
      exact ⟨h0, h1⟩

/-- C3 (corrected).  The store operations persist importance, strength and
valence exactly as supplied, with no clamping; the `[0,1]` / `[-1,1]` range
invariants therefore hold after a store exactly when they held before and the
supplied values are themselves within range (in-range preservation). -/
theorem range_preservation :
    (∀ (α : Type) (wm : WorkingMemory α) (now : Rat) (key : String) (c : α)
       (imp : Rat), cacheInRange wm → 0 ≤ imp → imp ≤ 1 →
       cacheInRange (wmStore wm now key c imp)) ∧
    (∀ (γ δ : Type) (em : EpisodicMemory γ δ) (now : Rat) (episodeId : String)
       (content : γ) (context : δ) (v imp : Rat) (tags : List String),
       emInRange em → 0 ≤ imp → imp ≤ 1 → -1 ≤ v → v ≤ 1 →
       emInRange (storeEpisode em now episodeId content context v imp tags)) ∧
    (∀ (expf : Rat → Rat) (net : AssociationNetwork) (now : Rat)
       (c1 c2 : String) (s : Rat) (ty : String),
       netInRange net → 0 ≤ s → s ≤ 1 →
       netInRange (createAssociation expf net now c1 c2 s ty)) := by
  refine ⟨fun α wm now key c imp h h0 h1 => cacheInRange_store wm now key c imp h h0 h1,
    fun γ δ em now i ct cx v imp tags h h0 h1 h2 h3 =>
      emInRange_store em now i ct cx v imp tags h h0 h1 h2 h3,
    fun expf net now c1 c2 s ty h h0 h1 => ?_⟩
  rw [createAssociation_eq_raw]
  exact netInRange_cleanup expf _ now (netInRange_createRaw net now c1 c2 s ty h h0 h1)

/-- Witness for C3: in-range stores on fresh states at concrete in-range
inputs. -/
theorem range_preservation_witness :
    cacheInRange (wmStore (wmInit Nat 7) 0 "k" 0 (1 / 2)) ∧
    emInRange (storeEpisode (emInit Nat Nat 1000) 0 "e" 0 0 (1 / 2) (3 / 4) []) ∧
    netInRange (createAssociation (fun _ => 1) anDefault 0 "a" "b" (4 / 5) "t") :=
  ⟨range_preservation.1 Nat (wmInit Nat 7) 0 "k" 0 (1 / 2)
      (fun p hp => absurd hp (List.not_mem_nil p))
      (by with_unfolding_all decide) (by with_unfolding_all decide),
   range_preservation.2.1 Nat Nat (emInit Nat Nat 1000) 0 "e" 0 0 (1 / 2) (3 / 4) []
      (fun r hr => absurd hr (List.not_mem_nil r))
      (by with_unfolding_all decide) (by with_unfolding_all decide)
      (by with_unfolding_all decide) (by with_unfolding_all decide),
   range_preservation.2.2 (fun _ => 1) anDefault 0 "a" "b" (4 / 5) "t"
      (fun e he => absurd he (List.not_mem_nil e))
      (by with_unfolding_all decide) (by with_unfolding_all decide)⟩

/-! ### C8: episode round-trip -/

/-- C8 counterexample.  With `episodic_limit = 1`, storing a second episode
triggers the cleanup, whose slack of 100 deletes every row — including the
episode just stored — so the immediate `retrieve_episode` returns nothing,
not an episode with identical fields. -/
theorem episode_roundtrip_cex :
    (retrieveEpisode
        (storeEpisode (storeEpisode (emInit Nat Nat 1) 0 "a" 0 0 0 (1 / 2) [])
          0 "b" 0 0 0 (1 / 2) []) 0 "b").1 = none := by
  with_unfolding_all decide

theorem emCleanup_eq_self_of_le {γ δ : Type} (em : EpisodicMemory γ δ)
    (h : em.rows.length ≤ em.maxEpisodes) : emCleanup em = em := by
  unfold emCleanup
  rw [if_pos h]

theorem findRow_upsertRow {γ δ : Type} (rows : List (EpisodeRow γ δ))
    (r : EpisodeRow γ δ) : findRow (upsertRow rows r) r.id = some r := by
  induction rows with
  | nil => simp [upsertRow, findRow]
  | cons q rest ih =>
      unfold upsertRow
      split
      · simp [findRow]
      · unfold findRow
        split
        · simp_all
        · exact ih

/-- C8 (corrected).  Provided the store after the upsert does not exceed
`max_episodes` (so the capacity cleanup is not triggered),
`store_episode(id, ...)` followed by `retrieve_episode(id)` returns an
episode whose content, tags, importance and emotional valence are identical
to the stored values. -/
theorem episode_roundtrip {γ δ : Type} (em : EpisodicMemory γ δ)
    (now now2 : Rat) (episodeId : String) (content : γ) (context : δ)
    (v imp : Rat) (tags : List String)
    (h : (upsertRow em.rows
        (mkEpisodeRow γ δ now episodeId content context v imp tags)).length
      ≤ em.maxEpisodes) :
    ∃ r, (retrieveEpisode (storeEpisode em now episodeId content context v imp tags)
            now2 episodeId).1 = some r ∧
      r.content = content ∧ r.tags = tags ∧ r.importance = imp ∧
      r.emotionalValence = v := by
  refine ⟨mkEpisodeRow γ δ now episodeId content context v imp tags,
    ?_, rfl, rfl, rfl, rfl⟩
  have hst : storeEpisode em now episodeId content context v imp tags
      = { em with rows := (upsertRow em.rows
            (mkEpisodeRow γ δ now episodeId content context v imp tags)) } :=
    emCleanup_eq_self_of_le _ h
  rw [retrieveEpisode, hst]
  have hf : findRow (upsertRow em.rows
        (mkEpisodeRow γ δ now episodeId content context v imp tags)) episodeId
      = some (mkEpisodeRow γ δ now episodeId content context v imp tags) :=
    findRow_upsertRow em.rows _
  simp only [hf]

/-- Witness for C8: round-trip on a fresh store with limit 1000 at concrete
values. -/
theorem episode_roundtrip_witness :
    ∃ r, (retrieveEpisode (storeEpisode (emInit Nat Nat 1000) 0 "e" 7 9 (1 / 4)
            (3 / 4) ["tag1"]) 5 "e").1 = some r ∧
      r.content = 7 ∧ r.tags = ["tag1"] ∧ r.importance = 3 / 4 ∧
      r.emotionalValence = 1 / 4 :=
  episode_roundtrip (emInit Nat Nat 1000) 0 5 "e" 7 9 (1 / 4) (3 / 4) ["tag1"]
    (by with_unfolding_all decide)

/-! ### C6: seeding of activate_concepts -/

/-- C6 counterexample.  `activate_concepts` on a fresh (empty) network with
input concept "x" returns a map that does not contain "x" at all: input
concepts that are not graph nodes are skipped by the seeding loop, not seeded
at 1.0. -/
theorem seed_totality_cex :
    dlookup (activateConcepts (fun _ => 1) anDefault 0 ["x"]).1 "x" = none := by
  with_unfolding_all decide

theorem activateConceptStats_hasNode (net : AssociationNetwork) (now : Rat)
    (c0 c : String) :
    hasNode (activateConceptStats net now c0) c = hasNode net c := by
  unfold activateConceptStats
  split
  · simp only [hasNode, List.any_map]
    congr 1
    funext p
    simp only [Function.comp]
    split <;> rfl
  · rfl

theorem seedFold_preserve_one (now : Rat) (todo : List String)
    (acc : List (String × Rat) × AssociationNetwork) (k : String)
    (h : dlookup acc.1 k = some 1) :
    dlookup (todo.foldl (seedStepF now) acc).1 k = some 1 := by
  induction todo generalizing acc with
  | nil => exact h
  | cons t ts ih =>
      refine ih (seedStepF now acc t) ?_
      unfold seedStepF
      split
      · by_cases hk : k = t
        · subst hk
          exact dlookup_dinsert_self acc.1 k 1
        · rw [dlookup_dinsert_ne acc.1 t k 1 hk]
          exact h
      · exact h

theorem seedFold_mem (now : Rat) (todo : List String)
    (acc : List (String × Rat) × AssociationNetwork) (c : String)
    (hc : c ∈ todo) (hn : hasNode acc.2 c = true) :
    dlookup (todo.foldl (seedStepF now) acc).1 c = some 1 := by
  induction todo generalizing acc with
  | nil => cases hc
  | cons t ts ih =>
      by_cases hct : c = t
      · subst hct
        simp only [List.foldl_cons]
        refine seedFold_preserve_one now ts (seedStepF now acc c) c ?_
        unfold seedStepF
        rw [hn]
        simp only [if_pos rfl]
        exact dlookup_dinsert_self acc.1 c 1
      · have hcts : c ∈ ts := by
          rcases List.mem_cons.mp hc with h1 | h1
          · exact absurd h1 hct
          · exact h1
        simp only [List.foldl_cons]
        refine ih (seedStepF now acc t) hcts ?_
        unfold seedStepF
        split
        · simp only
          rw [activateConceptStats_hasNode]
          exact hn
        · exact hn

theorem mergeFold_preserve (sec : List (String × Rat))
    (acc : List (String × Rat)) (k : String) (v : Rat)
    (h : dlookup acc k = some v) :
    dlookup (sec.foldl mergeStepF acc) k = some v := by
  induction sec generalizing acc with
  | nil => exact h
  | cons p ps ih =>
      refine ih (mergeStepF acc p) ?_
      unfold mergeStepF
      split
      · exact h
      · rename_i hnone
        have hk : k ≠ p.1 := fun hk => by rw [hk] at h; rw [h] at hnone; cases hnone
        rw [dlookup_dinsert_ne acc p.1 k _ hk]
        exact h

/-- C6 (corrected).  Every input concept that exists as a node in the graph
appears in the map returned by `activate_concepts` with activation exactly
1.0 (the merge keeps seeds at 1.0); input concepts that are not graph nodes
are omitted from the result rather than seeded. -/
theorem seed_totality (expf : Rat → Rat) (net : AssociationNetwork)
    (now : Rat) (concepts : List String) (c : String) (hc : c ∈ concepts)
    (hn : hasNode net c = true) :
    dlookup (activateConcepts expf net now concepts).1 c = some 1 := by
  unfold activateConcepts
  exact mergeFold_preserve _ _ c 1 (seedFold_mem now concepts ([], net) c hc hn)

/-- Witness for C6 on a two-node network: the existing seed "a" is returned
at activation 1.0. -/
theorem seed_totality_witness :
    dlookup (activateConcepts (fun _ => 1)
        (createAssociation (fun _ => 1) anDefault 0 "a" "b" 1 "t") 0
        ["a", "zzz"]).1 "a" = some 1 :=
  seed_totality (fun _ => 1)
    (createAssociation (fun _ => 1) anDefault 0 "a" "b" 1 "t") 0 ["a", "zzz"]
    "a" (by with_unfolding_all decide) (by with_unfolding_all decide)

/-! ### C9: consolidation pattern mining -/

/-- C9 counterexample.  With only three recent episodes, all tagged "t", the
mined pattern has strength `3/3 = 1`, not `3/50` — the divisor is the number
of examined episodes, not the constant 50. -/
theorem consolidation_strength_cex :
    analyzeEpisodePatterns
        [⟨["t"], none⟩, ⟨["t"], none⟩, ⟨["t"], none⟩]
      = [⟨"t", [⟨["t"], none⟩, ⟨["t"], none⟩, ⟨["t"], none⟩], 1⟩] ∧
    ¬ ((1 : Rat) = 3 / 50) := by
  refine ⟨?_, ?_⟩ <;> with_unfolding_all decide

theorem dinsert_map_fst {β : Type} (d : List (String × β)) (k : String)
    (v : β) :
    (dinsert d k v).map Prod.fst
      = if k ∈ d.map Prod.fst then d.map Prod.fst else d.map Prod.fst ++ [k] := by
  induction d with
  | nil => simp [dinsert]
  | cons p rest ih =>
      unfold dinsert
      split
      · rename_i hp
        subst hp
        simp
      · rename_i hp
        simp only [List.map_cons, List.mem_cons]
        rw [ih]
        by_cases hk : k ∈ rest.map Prod.fst
        · rw [if_pos hk, if_pos (Or.inr hk)]
        · rw [if_neg hk, if_neg ?_]
          · simp
          · intro hor
            rcases hor with h1 | h1
            · exact hp h1.symm
            · exact hk h1

theorem keysNodup_dinsert {β : Type} (d : List (String × β)) (k : String)
    (v : β) (h : (d.map Prod.fst).Nodup) :
    ((dinsert d k v).map Prod.fst).Nodup := by
  rw [dinsert_map_fst]
  split
  · exact h
  · rename_i hk
    simp only [List.nodup_append, List.nodup_singleton]
    exact ⟨h, trivial, by simp [hk, List.disjoint_singleton]⟩

theorem mem_of_dlookup_eq_some {β : Type} (d : List (String × β))
    (k : String) (v : β) (h : dlookup d k = some v) : (k, v) ∈ d := by
  induction d with
  | nil => cases h
  | cons p rest ih =>
      unfold dlookup at h
      split at h
      · rename_i hp
        have hv : p.2 = v := Option.some.inj h
        have hpkv : p = (k, v) := by
          cases p
          simp_all
        rw [← hpkv]
        exact List.mem_cons_self p rest
      · exact List.mem_cons_of_mem p (ih h)

theorem dlookup_eq_some_of_mem {β : Type} (d : List (String × β))
    (k : String) (v : β) (hnd : (d.map Prod.fst).Nodup) (h : (k, v) ∈ d) :
    dlookup d k = some v := by
  induction d with
  | nil => cases h
  | cons p rest ih =>
      simp only [List.map_cons, List.nodup_cons] at hnd
      unfold dlookup
      rcases List.mem_cons.mp h with h1 | h1
      · rw [← h1]
        simp
      · split
        · rename_i hp
          subst hp
          exact absurd (List.mem_map.mpr ⟨(p.1, v), h1, rfl⟩) hnd.1
        · exact ih hnd.2 h1

theorem tagStepF_keysNodup (ep : ConsolidationEpisode)
    (d : List (String × List ConsolidationEpisode)) (tag : String)
    (h : (d.map Prod.fst).Nodup) :
    ((tagStepF ep d tag).map Prod.fst).Nodup := by
  unfold tagStepF
  split <;> exact keysNodup_dinsert d tag _ h

theorem innerTagFold_keysNodup (ep : ConsolidationEpisode)
    (tags : List String) (d : List (String × List ConsolidationEpisode))
    (h : (d.map Prod.fst).Nodup) :
    (((tags.foldl (tagStepF ep) d)).map Prod.fst).Nodup := by
  induction tags generalizing d with
  | nil => exact h
  | cons t ts ih => exact ih (tagStepF ep d t) (tagStepF_keysNodup ep d t h)

theorem tagGroups_keysNodup (episodes : List ConsolidationEpisode) :
    ((tagGroups episodes).map Prod.fst).Nodup := by
  unfold tagGroups
  have hgen : ∀ (es : List ConsolidationEpisode)
      (d : List (String × List ConsolidationEpisode)),
      (d.map Prod.fst).Nodup → ((es.foldl groupStepF d).map Prod.fst).Nodup := by
    intro es
    induction es with
    | nil => exact fun d h => h
    | cons e rest ih =>
        intro d h
        exact ih (groupStepF d e) (innerTagFold_keysNodup e e.tags d h)
  exact hgen episodes [] (by simp)

theorem innerTagFold_lookup (ep : ConsolidationEpisode) (tags : List String)
    (hnd : tags.Nodup) (d : List (String × List ConsolidationEpisode))
    (t : String) :
    dlookup (tags.foldl (tagStepF ep) d) t
      = if t ∈ tags then some ((dlookup d t).getD [] ++ [ep])
        else dlookup d t := by
  induction tags generalizing d with
  | nil => simp
  | cons tg ts ih =>
      simp only [List.nodup_cons] at hnd
      simp only [List.foldl_cons]
      rw [ih hnd.2]
      by_cases hte : t = tg
      · subst hte
        rw [if_neg hnd.1, if_pos (List.mem_cons_self t ts)]
        unfold tagStepF
        split
        · rename_i grp hg
          rw [dlookup_dinsert_self, hg]
          rfl
        · rename_i hg
          rw [dlookup_dinsert_self, hg]
          rfl
      · have hlk : dlookup (tagStepF ep d tg) t = dlookup d t := by
          unfold tagStepF
          split <;> exact dlookup_dinsert_ne d tg t _ hte
        by_cases hts : t ∈ ts
        · rw [if_pos hts, if_pos (List.mem_cons_of_mem tg hts), hlk]
        · rw [if_neg hts, hlk,
            if_neg (fun hmem => by
              rcases List.mem_cons.mp hmem with h1 | h1
              · exact hte h1
              · exact hts h1)]

theorem groupFold_lookup (episodes : List ConsolidationEpisode)
    (hn : ∀ e ∈ episodes, e.tags.Nodup)
    (d : List (String × List ConsolidationEpisode)) (t : String) :
    dlookup (episodes.foldl groupStepF d) t
      = if tagGroupOf episodes t = [] then dlookup d t
        else some ((dlookup d t).getD [] ++ tagGroupOf episodes t) := by
  induction episodes generalizing d with
  | nil => simp [tagGroupOf]
  | cons e rest ih =>
      have hne := hn e (List.mem_cons_self e rest)
      have hnr : ∀ x ∈ rest, x.tags.Nodup :=
        fun x hx => hn x (List.mem_cons_of_mem e hx)
      have hstep : dlookup (groupStepF d e) t
          = if t ∈ e.tags then some ((dlookup d t).getD [] ++ [e])
            else dlookup d t := innerTagFold_lookup e e.tags hne d t
      simp only [List.foldl_cons]
      rw [ih hnr]
      by_cases hte : t ∈ e.tags
      · have hgrp : tagGroupOf (e :: rest) t = e :: tagGroupOf rest t := by
          simp [tagGroupOf, hte]
        rw [hstep, if_pos hte, hgrp]
        by_cases hr : tagGroupOf rest t = []
        · rw [if_pos hr, hr, if_neg (List.cons_ne_nil e [])]
        · rw [if_neg hr, if_neg (List.cons_ne_nil e (tagGroupOf rest t))]
          simp
      · have hgrp : tagGroupOf (e :: rest) t = tagGroupOf rest t := by
          simp [tagGroupOf, hte]
        rw [hstep, if_neg hte, hgrp]

theorem tagGroups_lookup (episodes : List ConsolidationEpisode)
    (hn : ∀ e ∈ episodes, e.tags.Nodup) (t : String) :
    dlookup (tagGroups episodes) t
      = if tagGroupOf episodes t = [] then none
        else some (tagGroupOf episodes t) := by
  unfold tagGroups
  rw [groupFold_lookup episodes hn [] t]
  split <;> rfl

/-- C9 (corrected).  A consolidation run examines the most recent 50
episodes; among the examined episodes (each carrying a duplicate-free tag
list), a tag becomes a pattern exactly when at least 3 of them carry it, the
pattern's episode group is exactly those episodes, and its strength is
`group_size / number_of_examined_episodes` — the divisor is the episode count
actually examined (at most 50), not the constant 50; each pattern then
reinforces every ordered pair of concepts found in its episodes' content at
`strength * 0.5`. -/
theorem consolidation_patterns :
    (∀ (episodes : List ConsolidationEpisode),
      (∀ e ∈ episodes, e.tags.Nodup) →
      ∀ p : TagPattern,
        p ∈ analyzeEpisodePatterns episodes ↔
          (3 ≤ (tagGroupOf episodes p.tag).length ∧
           p.episodes = tagGroupOf episodes p.tag ∧
           p.strength = ((tagGroupOf episodes p.tag).length : Rat)
             / (episodes.length : Rat))) ∧
    (∀ p : TagPattern, ∀ q ∈ orderedPairs (patternConcepts p.episodes),
      (q.1, q.2, p.strength * (1 / 2), "pattern_" ++ p.tag)
        ∈ reinforcementCalls p) := by
  constructor
  · intro episodes hn p
    constructor
    · intro hp
      rcases List.mem_filterMap.mp hp with ⟨g, hg, hfg⟩
      have hlk : dlookup (tagGroups episodes) g.1 = some g.2 :=
        dlookup_eq_some_of_mem _ g.1 g.2 (tagGroups_keysNodup episodes)
          (by cases g; exact hg)
      rw [tagGroups_lookup episodes hn g.1] at hlk
      split at hlk
      · cases hlk
      · have hg2 : g.2 = tagGroupOf episodes g.1 := (Option.some.inj hlk).symm
        split at hfg
        · rename_i hlen
          rcases Option.some.inj hfg with rfl
          simp only
          rw [← hg2]
          exact ⟨hlen, rfl, rfl⟩
        · cases hfg
    · rintro ⟨hlen, heps, hstr⟩
      have hne : tagGroupOf episodes p.tag ≠ [] := by
        intro hempty
        rw [hempty] at hlen
        simp at hlen
      have hlk : dlookup (tagGroups episodes) p.tag
          = some (tagGroupOf episodes p.tag) := by
        rw [tagGroups_lookup episodes hn p.tag, if_neg hne]
      refine List.mem_filterMap.mpr
        ⟨(p.tag, tagGroupOf episodes p.tag),
         mem_of_dlookup_eq_some _ p.tag _ hlk, ?_⟩
      simp only
      rw [if_pos hlen]
      cases p with
  | mk tg eps str =>
      simp only at heps hstr
      rw [heps, hstr]
  · intro p q hq
    unfold reinforcementCalls
    exact List.mem_map.mpr ⟨q, hq, rfl⟩

/-- Witness for C9: three episodes tagged "t" yield exactly the pattern with
strength `3/3 = 1`, and its single concept pair is reinforced at `1 * 0.5`. -/
theorem consolidation_patterns_witness :
    (⟨"t", [⟨["t"], some ["x", "y"]⟩, ⟨["t"], none⟩, ⟨["t"], none⟩], 1⟩ : TagPattern)
      ∈ analyzeEpisodePatterns
          [⟨["t"], some ["x", "y"]⟩, ⟨["t"], none⟩, ⟨["t"], none⟩] ∧
    ("x", "y", (1 : Rat) * (1 / 2), "pattern_" ++ "t")
      ∈ reinforcementCalls
          ⟨"t", [⟨["t"], some ["x", "y"]⟩, ⟨["t"], none⟩, ⟨["t"], none⟩], 1⟩ :=
  ⟨(consolidation_patterns.1
      [⟨["t"], some ["x", "y"]⟩, ⟨["t"], none⟩, ⟨["t"], none⟩]
      (by with_unfolding_all decide) _).mpr
      (by refine ⟨?_, ?_, ?_⟩ <;> with_unfolding_all decide),
   consolidation_patterns.2
      ⟨"t", [⟨["t"], some ["x", "y"]⟩, ⟨["t"], none⟩, ⟨["t"], none⟩], 1⟩
      ("x", "y") (by with_unfolding_all decide)⟩

/-! ### C5: spreading-activation scenario -/

/-- On a fresh default network, the two `create_association` calls of the
scenario build exactly this graph (the cleanup is a no-op below the limit;
the term does not depend on the abstract exponential). -/
theorem dogNet_eval (expf : Rat → Rat) :
    dogNet expf =
      { nodes := [("dog", ⟨0, 0, 0⟩), ("animal", ⟨0, 0, 0⟩), ("pet", ⟨0, 0, 0⟩)],
        edges := [(("dog", "animal"), ⟨9 / 10, "general", 0, 0, 1⟩),
                  (("dog", "pet"), ⟨7 / 10, "general", 0, 0, 1⟩)],
        threshold := 1 / 2, maxAssociations := 1000, decayRate := 1 / 100 } := by
  with_unfolding_all rfl

/-- Zero elapsed time since reinforcement leaves the effective strength at
the base strength (`exp 0 = 1`). -/
theorem applyDecay_fresh (expf : Rat → Rat) (h : expf 0 = 1) (rate : Rat)
    (d : EdgeData) (now : Rat) (hd : d.lastReinforcement = now) :
    applyDecay expf rate d now = d.strength := by
  unfold applyDecay
  rw [hd]
  have e0 : -rate * (now - now) / 3600 = 0 := by ring
  rw [e0, h, mul_one]

/-- C5 (confirmed).  Activation scenario: after
`create_association("dog","animal",0.9)` and
`create_association("dog","pet",0.7)`, an immediate `activate_concepts(["dog"])`
(zero elapsed time, so the decay factor `expf 0` is 1 and both edges pass the
default threshold 0.5) returns exactly
`{dog: 1.0, animal: 0.45, pet: 0.35}`. -/
theorem activation_scenario (expf : Rat → Rat) (h : expf 0 = 1) :
    (activateConcepts expf (dogNet expf) 0 ["dog"]).1
      = [("dog", 1), ("animal", 9 / 20), ("pet", 7 / 20)] := by
  have hD1 : applyDecay expf (1 / 100) ⟨9 / 10, "general", 0, 0, 1⟩ 0 = 9 / 10 :=
    applyDecay_fresh expf h (1 / 100) _ 0 rfl
  have hD2 : applyDecay expf (1 / 100) ⟨7 / 10, "general", 0, 0, 1⟩ 0 = 7 / 10 :=
    applyDecay_fresh expf h (1 / 100) _ 0 rfl
  rw [dogNet_eval expf]
  norm_num [activateConcepts, seedStepF, propagateStepF, mergeStepF,
    getAssociations, activateConceptStats, neighborsOf, hasNode,
    dinsert, dlookup, sortedBy, insertSorted, hD1, hD2]
  norm_num [List.filterMap_cons, hD1, hD2, dinsert, dlookup, sortedBy,
    insertSorted, mergeStepF]
  have hne : ("animal" : String) = "pet" ↔ False := iff_false_intro (by decide)
  have hne2 : ("dog" : String) = "pet" ↔ False := iff_false_intro (by decide)
  have hne3 : ("dog" : String) = "animal" ↔ False := iff_false_intro (by decide)
  norm_num [hne, hne2, hne3, mergeStepF, dinsert, dlookup]

/-- Witness for C5 with the exponential modelled at its only evaluation
point (`exp 0 = 1`). -/
theorem activation_scenario_witness :
    (activateConcepts (fun _ => 1) (dogNet (fun _ => 1)) 0 ["dog"]).1
      = [("dog", 1), ("animal", 9 / 20), ("pet", 7 / 20)] :=
  activation_scenario (fun _ => 1) rfl

/-! ### C10: hop bound applies only to the minimum-weight path -/

theorem chainNet_eval (expf : Rat → Rat) :
    chainNet expf =
      { nodes := [("a", ⟨0, 0, 0⟩), ("b", ⟨0, 0, 0⟩), ("c", ⟨0, 0, 0⟩), ("d", ⟨0, 0, 0⟩)],
        edges := [(("a", "b"), ⟨1 / 10, "general", 0, 0, 1⟩),
                  (("a", "c"), ⟨1, "general", 0, 0, 1⟩),
                  (("c", "d"), ⟨1, "general", 0, 0, 1⟩),
                  (("d", "b"), ⟨1, "general", 0, 0, 1⟩)],
        threshold := 1 / 2, maxAssociations := 1000, decayRate := 1 / 100 } := by
  have s1 : createAssociation expf anDefault 0 "a" "b" (1 / 10) "general"
      = { nodes := [("a", ⟨0, 0, 0⟩), ("b", ⟨0, 0, 0⟩)],
          edges := [(("a", "b"), ⟨1 / 10, "general", 0, 0, 1⟩)],
          threshold := 1 / 2, maxAssociations := 1000, decayRate := 1 / 100 } := by
    with_unfolding_all rfl
  have s2 : createAssociation expf
        { nodes := [("a", ⟨0, 0, 0⟩), ("b", ⟨0, 0, 0⟩)],
          edges := [(("a", "b"), ⟨1 / 10, "general", 0, 0, 1⟩)],
          threshold := 1 / 2, maxAssociations := 1000, decayRate := 1 / 100 }
        0 "a" "c" 1 "general"
      = { nodes := [("a", ⟨0, 0, 0⟩), ("b", ⟨0, 0, 0⟩), ("c", ⟨0, 0, 0⟩)],
          edges := [(("a", "b"), ⟨1 / 10, "general", 0, 0, 1⟩),
                    (("a", "c"), ⟨1, "general", 0, 0, 1⟩)],
          threshold := 1 / 2, maxAssociations := 1000, decayRate := 1 / 100 } := by
    with_unfolding_all rfl
  have s3 : createAssociation expf
        { nodes := [("a", ⟨0, 0, 0⟩), ("b", ⟨0, 0, 0⟩), ("c", ⟨0, 0, 0⟩)],
          edges := [(("a", "b"), ⟨1 / 10, "general", 0, 0, 1⟩),
                    (("a", "c"), ⟨1, "general", 0, 0, 1⟩)],
          threshold := 1 / 2, maxAssociations := 1000, decayRate := 1 / 100 }
        0 "c" "d" 1 "general"
      = { nodes := [("a", ⟨0, 0, 0⟩), ("b", ⟨0, 0, 0⟩), ("c", ⟨0, 0, 0⟩), ("d", ⟨0, 0, 0⟩)],
          edges := [(("a", "b"), ⟨1 / 10, "general", 0, 0, 1⟩),
                    (("a", "c"), ⟨1, "general", 0, 0, 1⟩),
                    (("c", "d"), ⟨1, "general", 0, 0, 1⟩)],
          threshold := 1 / 2, maxAssociations := 1000, decayRate := 1 / 100 } := by
    with_unfolding_all rfl
  have s4 : createAssociation expf
        { nodes := [("a", ⟨0, 0, 0⟩), ("b", ⟨0, 0, 0⟩), ("c", ⟨0, 0, 0⟩), ("d", ⟨0, 0, 0⟩)],
          edges := [(("a", "b"), ⟨1 / 10, "general", 0, 0, 1⟩),
                    (("a", "c"), ⟨1, "general", 0, 0, 1⟩),
                    (("c", "d"), ⟨1, "general", 0, 0, 1⟩)],
          threshold := 1 / 2, maxAssociations := 1000, decayRate := 1 / 100 }
        0 "d" "b" 1 "general"
      = { nodes := [("a", ⟨0, 0, 0⟩), ("b", ⟨0, 0, 0⟩), ("c", ⟨0, 0, 0⟩), ("d", ⟨0, 0, 0⟩)],
          edges := [(("a", "b"), ⟨1 / 10, "general", 0, 0, 1⟩),
                    (("a", "c"), ⟨1, "general", 0, 0, 1⟩),
                    (("c", "d"), ⟨1, "general", 0, 0, 1⟩),
                    (("d", "b"), ⟨1, "general", 0, 0, 1⟩)],
          threshold := 1 / 2, maxAssociations := 1000, decayRate := 1 / 100 } := by
    with_unfolding_all rfl
  unfold chainNet
  rw [s1, s2, s3, s4]

theorem path_bound_general (expf : Rat → Rat) (net : AssociationNetwork)
    (now : Rat) (a b : String) (maxLength : Nat) (p : List String)
    (hp : minWeightPath expf net now (simplePaths net a b) = some p)
    (hl : ¬ (p.length ≤ maxLength + 1)) :
    findPath expf net now a b maxLength = none := by
  unfold findPath
  split
  · rw [hp]
    simp [hl]
  · rfl

theorem path_bound_scenario (expf : Rat → Rat) (h : expf 0 = 1) :
    findPath expf (chainNet expf) 0 "a" "b" 1 = none ∧
    isPathIn (chainNet expf) ["a", "b"] = true ∧
    (["a", "b"] : List String).length ≤ 1 + 1 := by
  have hD1 : applyDecay expf (1 / 100) ⟨1 / 10, "general", 0, 0, 1⟩ 0 = 1 / 10 :=
    applyDecay_fresh expf h (1 / 100) _ 0 rfl
  have hD2 : applyDecay expf (1 / 100) ⟨1, "general", 0, 0, 1⟩ 0 = 1 :=
    applyDecay_fresh expf h (1 / 100) _ 0 rfl
  rw [chainNet_eval expf]
  set NL : AssociationNetwork :=
    { nodes := [("a", ⟨0, 0, 0⟩), ("b", ⟨0, 0, 0⟩), ("c", ⟨0, 0, 0⟩), ("d", ⟨0, 0, 0⟩)],
      edges := [(("a", "b"), ⟨1 / 10, "general", 0, 0, 1⟩),
                (("a", "c"), ⟨1, "general", 0, 0, 1⟩),
                (("c", "d"), ⟨1, "general", 0, 0, 1⟩),
                (("d", "b"), ⟨1, "general", 0, 0, 1⟩)],
      threshold := 1 / 2, maxAssociations := 1000, decayRate := 1 / 100 } with hNL
  refine ⟨?_, ?_, by norm_num⟩
  · have hP : simplePaths NL "a" "b" = [["a", "b"], ["a", "c", "d", "b"]] := by
      rw [hNL]; with_unfolding_all rfl
    have hE1 : edgeLookup NL "a" "b" = some ⟨1 / 10, "general", 0, 0, 1⟩ := by
      rw [hNL]; with_unfolding_all rfl
    have hE2 : edgeLookup NL "a" "c" = some ⟨1, "general", 0, 0, 1⟩ := by
      rw [hNL]; with_unfolding_all rfl
    have hE3 : edgeLookup NL "c" "d" = some ⟨1, "general", 0, 0, 1⟩ := by
      rw [hNL]; with_unfolding_all rfl
    have hE4 : edgeLookup NL "d" "b" = some ⟨1, "general", 0, 0, 1⟩ := by
      rw [hNL]; with_unfolding_all rfl
    have hdr : NL.decayRate = 1 / 100 := by rw [hNL]
    have hw1 : pathWeight expf NL 0 ["a", "b"] = 10 := by
      simp only [pathWeight, edgeWeight, hE1, hdr, hD1]
      norm_num [sup_eq_max, max_def]
    have hw2 : pathWeight expf NL 0 ["a", "c", "d", "b"] = 3 := by
      simp only [pathWeight, edgeWeight, hE2, hE3, hE4, hdr, hD2]
      norm_num [sup_eq_max, max_def]
    refine path_bound_general expf NL 0 "a" "b" 1 ["a", "c", "d", "b"] ?_ (by norm_num)
    rw [hP]
    simp only [minWeightPath, List.foldl_cons, List.foldl_nil]
    rw [hw1, hw2]
    norm_num
  · rw [hNL]
    with_unfolding_all decide

/-- C10 (confirmed).  `find_path` applies the hop bound only to the globally
minimum-weight path (edge weight `1/max(strength, 0.01)`): whenever that
particular path has more than `max_length` hops, `find_path` returns `none`.
Consequently, on the network with a weak direct edge `a - b` and a strong
three-hop chain `a - c - d - b`, queried immediately (decay factor 1),
`find_path("a","b", max_length=1)` returns `none` even though the one-hop
connecting path `a - b` exists and is within the bound. -/
theorem findPath_hop_bound :
    (∀ (expf : Rat → Rat) (net : AssociationNetwork) (now : Rat)
       (a b : String) (maxLength : Nat) (p : List String),
      minWeightPath expf net now (simplePaths net a b) = some p →
      ¬ (p.length ≤ maxLength + 1) →
      findPath expf net now a b maxLength = none) ∧
    (∀ expf : Rat → Rat, expf 0 = 1 →
      findPath expf (chainNet expf) 0 "a" "b" 1 = none ∧
      isPathIn (chainNet expf) ["a", "b"] = true ∧
      (["a", "b"] : List String).length ≤ 1 + 1) :=
  ⟨path_bound_general, path_bound_scenario⟩

/-- Witness for C10 with the exponential modelled at its only evaluation
point. -/
theorem findPath_hop_bound_witness :
    findPath (fun _ => 1) (chainNet (fun _ => 1)) 0 "a" "b" 1 = none ∧
    isPathIn (chainNet (fun _ => 1)) ["a", "b"] = true ∧
    (["a", "b"] : List String).length ≤ 1 + 1 :=
  findPath_hop_bound.2 (fun _ => 1) rfl


/-! ### C4: cache eviction policy -/

/-- C4 counterexample.  With an empty-string key in a full cache, eviction
selects it as the minimum-score item but the Python truthiness check
`if least_important_key:` skips the deletion: after the insert the
empty-string item is still retrievable (and so is the other item), even
though the claimed policy says the minimum-score item is evicted. -/
theorem eviction_policy_cex :
    (wmRetrieve (wmStore (wmStore (wmInit Nat 1) 0 "" 5 (1 / 2)) 0 "x" 6
        (9 / 10)) 0 "").1 = some 5 ∧
    (wmRetrieve (wmStore (wmStore (wmInit Nat 1) 0 "" 5 (1 / 2)) 0 "x" 6
        (9 / 10)) 0 "x").1 = some 6 := by
  refine ⟨?_, ?_⟩ <;> with_unfolding_all decide


theorem evictFold_eq_scored {α : Type} (m : List (String × MemoryItem α))
    (now : Rat) (keys : List String) (acc : Option (Rat × String)) :
    keys.foldl
      (fun acc key =>
        match dlookup m key with
        | none => acc
        | some it => pickF acc (evictScore it now, key)) acc
      = (scoredItems m now keys).foldl pickF acc := by
  induction keys generalizing acc with
  | nil => rfl
  | cons k ks ih =>
      simp only [List.foldl_cons, scoredItems, List.filterMap_cons]
      cases hlk : dlookup m k with
      | none =>
          simp only [hlk, Option.map_none']
          exact ih acc
      | some it =>
          simp only [hlk, Option.map_some', List.foldl_cons]
          exact ih (pickF acc (evictScore it now, k))

theorem foldl_pickF_some (l : List (Rat × String)) (p : Rat × String) :
    l.foldl pickF (some p) = some (firstMin p l) := by
  induction l generalizing p with
  | nil => rfl
  | cons q qs ih =>
      obtain ⟨ms, bk⟩ := p
      simp only [List.foldl_cons, pickF]
      unfold firstMin
      by_cases hq : q.1 < ms
      · rw [if_pos hq, if_pos hq]
        exact ih q
      · rw [if_neg hq, if_neg hq]
        exact ih (ms, bk)

theorem firstMin_head_le (l : List (Rat × String)) (p : Rat × String) :
    (firstMin p l).1 ≤ p.1 := by
  induction l generalizing p with
  | nil => exact le_refl _
  | cons q qs ih =>
      unfold firstMin
      by_cases hq : q.1 < p.1
      · rw [if_pos hq]
        exact le_trans (ih q) (le_of_lt hq)
      · rw [if_neg hq]
        exact ih p

theorem firstMin_decomp (l : List (Rat × String)) (p : Rat × String) :
    ∃ l1 l2, p :: l = l1 ++ (firstMin p l) :: l2 ∧
      (∀ q ∈ l1, (firstMin p l).1 < q.1) ∧
      (∀ q ∈ l2, (firstMin p l).1 ≤ q.1) := by
  induction l generalizing p with
  | nil => exact ⟨[], [], rfl, by simp, by simp⟩
  | cons q qs ih =>
      by_cases hq : q.1 < p.1
      · obtain ⟨l1, l2, heq, h1, h2⟩ := ih q
        have hstep : firstMin p (q :: qs)
            = if q.1 < p.1 then firstMin q qs else firstMin p qs := rfl
        have hfm : firstMin p (q :: qs) = firstMin q qs := by
          rw [hstep, if_pos hq]
        have hle : (firstMin q qs).1 ≤ q.1 := firstMin_head_le qs q
        refine ⟨p :: l1, l2, ?_, ?_, ?_⟩
        · rw [hfm, List.cons_append, ← heq]
        · intro x hx
          rcases List.mem_cons.mp hx with hx | hx
          · rw [hfm, hx]
            exact lt_of_le_of_lt hle hq
          · rw [hfm]
            exact h1 x hx
        · intro x hx
          rw [hfm]
          exact h2 x hx
      · obtain ⟨l1, l2, heq, h1, h2⟩ := ih p
        have hstep : firstMin p (q :: qs)
            = if q.1 < p.1 then firstMin q qs else firstMin p qs := rfl
        have hfm : firstMin p (q :: qs) = firstMin p qs := by
          rw [hstep, if_neg hq]
        have hple : p.1 ≤ q.1 := le_of_not_lt hq
        cases l1 with
        | nil =>
            simp only [List.nil_append] at heq
            have hfp : firstMin p qs = p := by
              have := List.head_eq_of_cons_eq heq.symm
              exact this
            have hl2 : qs = l2 := List.tail_eq_of_cons_eq heq
            refine ⟨[], q :: qs, ?_, by simp, ?_⟩
            · rw [hfm, hfp, List.nil_append]
            · intro x hx
              rcases List.mem_cons.mp hx with hx | hx
              · rw [hfm, hfp, hx]
                exact hple
              · rw [hfm]
                exact h2 x (hl2 ▸ hx)
        | cons a l1t =>
            simp only [List.cons_append] at heq
            have hap : a = p := (List.head_eq_of_cons_eq heq.symm)
            have hqs : qs = l1t ++ firstMin p qs :: l2 :=
              List.tail_eq_of_cons_eq heq
            have hlt : (firstMin p qs).1 < p.1 := by
              have := h1 a (List.mem_cons_self a l1t)
              rw [hap] at this
              exact this
            refine ⟨p :: q :: l1t, l2, ?_, ?_, ?_⟩
            · rw [hfm]
              simp only [List.cons_append]
              rw [← hqs]
            · intro x hx
              rcases List.mem_cons.mp hx with hx | hx
              · rw [hfm, hx]
                exact hlt
              · rcases List.mem_cons.mp hx with hx | hx
                · rw [hfm, hx]
                  exact lt_of_lt_of_le hlt hple
                · rw [hfm]
                  exact h1 x (List.mem_cons_of_mem a hx)
            · intro x hx
              rw [hfm]
              exact h2 x hx

theorem scoredItems_mem {α : Type} (m : List (String × MemoryItem α))
    (now : Rat) (keys : List String) (s : Rat) (k : String)
    (h : (s, k) ∈ scoredItems m now keys) :
    k ∈ keys ∧ ∃ it, dlookup m k = some it ∧ s = evictScore it now := by
  unfold scoredItems at h
  rcases List.mem_filterMap.mp h with ⟨k0, hk0, hmap⟩
  cases hlk : dlookup m k0 with
  | none =>
      rw [hlk] at hmap
      cases hmap
  | some it =>
      rw [hlk] at hmap
      simp only [Option.map_some'] at hmap
      have hpair := Option.some.inj hmap
      have hs : evictScore it now = s := congrArg Prod.fst hpair
      have hk : k0 = k := congrArg Prod.snd hpair
      subst hk
      exact ⟨hk0, it, hlk, hs.symm⟩

theorem wmEvict_eq {α : Type} (wm : WorkingMemory α) (now : Rat) (s : Rat)
    (bk : String) (hne : wm.items ≠ [])
    (hfold : evictFold wm.itemMap now wm.items = some (s, bk))
    (hbk : ¬ (bk = "")) :
    wmEvict wm now
      = { wm with items := wm.items.erase bk, itemMap := derase wm.itemMap bk } := by
  unfold wmEvict
  rw [if_neg (by simpa using hne)]
  rw [hfold]
  simp only
  rw [if_neg hbk]

theorem wmStore_eq_of_fresh_full {α : Type} (wm : WorkingMemory α)
    (now : Rat) (key : String) (c : α) (imp : Rat)
    (hkey : dlookup wm.itemMap key = none)
    (hfull : wm.capacity ≤ wm.items.length) :
    wmStore wm now key c imp
      = { capacity := (wmEvict wm now).capacity,
          items := dequeAppend (wmEvict wm now).capacity (wmEvict wm now).items key,
          itemMap := dinsert (wmEvict wm now).itemMap key
            ⟨c, now, 0, 0, imp⟩ } := by
  unfold wmStore
  rw [hkey]
  simp only
  rw [if_pos hfull]

set_option maxRecDepth 20000 in
/-- C4 (corrected).  Eviction policy: when `store` inserts a new key into a
full cache whose keys are all nonempty strings (and whose key map is
well-formed), the evicted item is the one minimizing
`score = importance - age_hours`, ties broken by smallest insertion index
(the selected entry is preceded in the scored deque only by strictly larger
scores and followed only by scores at least as large); the evicted key is no
longer in the map and every other key is untouched.  In particular, with
capacity 2, after `store(k1,c1,0.5)`, `store(k2,c2,0.7)`, `store(k3,c3,0.9)`
in quick succession, `retrieve(k1)` is `none` while `retrieve(k2) = c2` and
`retrieve(k3) = c3`.  (For an empty-string key the eviction is skipped by a
truthiness check — see the counterexample.) -/
theorem eviction_policy :
    (∀ (α : Type) (wm : WorkingMemory α) (now : Rat) (key : String) (c : α)
       (imp : Rat),
      dlookup wm.itemMap key = none →
      wm.capacity ≤ wm.items.length →
      0 < wm.capacity →
      (∀ k ∈ wm.items, ¬ (k = "") ∧ (dlookup wm.itemMap k).isSome = true) →
      (wm.itemMap.map Prod.fst).Nodup →
      ∃ s bk l1 l2,
        evictFold wm.itemMap now wm.items = some (s, bk) ∧
        scoredItems wm.itemMap now wm.items = l1 ++ (s, bk) :: l2 ∧
        (∀ q ∈ l1, s < q.1) ∧ (∀ q ∈ l2, s ≤ q.1) ∧
        dlookup (wmStore wm now key c imp).itemMap bk = none ∧
        (∀ k2, ¬ (k2 = bk) → ¬ (k2 = key) →
          dlookup (wmStore wm now key c imp).itemMap k2 = dlookup wm.itemMap k2)) ∧
    (∀ (α : Type) (c1 c2 c3 : α),
      (wmRetrieve (wmStore (wmStore (wmStore (wmInit α 2) 0 "k1" c1 (1 / 2))
          0 "k2" c2 (7 / 10)) 0 "k3" c3 (9 / 10)) 0 "k1").1 = none ∧
      (wmRetrieve (wmStore (wmStore (wmStore (wmInit α 2) 0 "k1" c1 (1 / 2))
          0 "k2" c2 (7 / 10)) 0 "k3" c3 (9 / 10)) 0 "k2").1 = some c2 ∧
      (wmRetrieve (wmStore (wmStore (wmStore (wmInit α 2) 0 "k1" c1 (1 / 2))
          0 "k2" c2 (7 / 10)) 0 "k3" c3 (9 / 10)) 0 "k3").1 = some c3) := by
  constructor
  · intro α wm now key c imp hkey hfull hcap hkeys hnd
    have hne : wm.items ≠ [] := by
      intro h0
      rw [h0] at hfull
      simp only [List.length_nil, Nat.le_zero] at hfull
      omega
    obtain ⟨i0, rest, hitems⟩ := List.exists_cons_of_ne_nil hne
    have hi0 := hkeys i0 (by rw [hitems]; exact List.mem_cons_self i0 rest)
    obtain ⟨it0, hit0⟩ := Option.isSome_iff_exists.mp hi0.2
    have hscored : scoredItems wm.itemMap now wm.items
        = (evictScore it0 now, i0) :: scoredItems wm.itemMap now rest := by
      rw [hitems]
      unfold scoredItems
      rw [List.filterMap_cons, hit0]
      rfl
    have hef : evictFold wm.itemMap now wm.items
        = some (firstMin (evictScore it0 now, i0)
            (scoredItems wm.itemMap now rest)) := by
      unfold evictFold
      rw [evictFold_eq_scored, hscored]
      simp only [List.foldl_cons]
      rw [show pickF none (evictScore it0 now, i0)
          = some (evictScore it0 now, i0) from rfl]
      exact foldl_pickF_some _ _
    obtain ⟨l1, l2, hdec, h1, h2⟩ :=
      firstMin_decomp (scoredItems wm.itemMap now rest) (evictScore it0 now, i0)
    have hfm_scored : scoredItems wm.itemMap now wm.items
        = l1 ++ (firstMin (evictScore it0 now, i0)
            (scoredItems wm.itemMap now rest)) :: l2 := by
      rw [hscored, hdec]
    have hfm_mem : (firstMin (evictScore it0 now, i0)
        (scoredItems wm.itemMap now rest)) ∈ scoredItems wm.itemMap now wm.items := by
      rw [hfm_scored]
      exact List.mem_append_right l1 (List.mem_cons_self _ l2)
    have hfm_eta : ((firstMin (evictScore it0 now, i0)
          (scoredItems wm.itemMap now rest)).1,
        (firstMin (evictScore it0 now, i0) (scoredItems wm.itemMap now rest)).2)
        = firstMin (evictScore it0 now, i0) (scoredItems wm.itemMap now rest) :=
      Prod.mk.eta
    obtain ⟨hbk_items, itbk, hitbk, hsbk⟩ :=
      scoredItems_mem wm.itemMap now wm.items _ _ (hfm_eta ▸ hfm_mem)
    have hbk_ne : ¬ ((firstMin (evictScore it0 now, i0)
        (scoredItems wm.itemMap now rest)).2 = "") := (hkeys _ hbk_items).1
    have hbk_key : ¬ ((firstMin (evictScore it0 now, i0)
        (scoredItems wm.itemMap now rest)).2 = key) := by
      intro hk
      rw [hk] at hitbk
      rw [hkey] at hitbk
      cases hitbk
    have hev : wmEvict wm now
        = { wm with
            items := wm.items.erase (firstMin (evictScore it0 now, i0)
              (scoredItems wm.itemMap now rest)).2,
            itemMap := derase wm.itemMap (firstMin (evictScore it0 now, i0)
              (scoredItems wm.itemMap now rest)).2 } :=
      wmEvict_eq wm now _ _ hne (by rw [hef, hfm_eta]) hbk_ne
    have hpost : (wmStore wm now key c imp).itemMap
        = dinsert (derase wm.itemMap (firstMin (evictScore it0 now, i0)
            (scoredItems wm.itemMap now rest)).2) key ⟨c, now, 0, 0, imp⟩ := by
      rw [wmStore_eq_of_fresh_full wm now key c imp hkey hfull, hev]
    refine ⟨(firstMin (evictScore it0 now, i0) (scoredItems wm.itemMap now rest)).1,
      (firstMin (evictScore it0 now, i0) (scoredItems wm.itemMap now rest)).2,
      l1, l2, by rw [hef, hfm_eta], by rw [hfm_scored, hfm_eta], h1, h2, ?_, ?_⟩
    · rw [hpost, dlookup_dinsert_ne _ _ _ _ hbk_key]
      exact dlookup_derase_self wm.itemMap _ hnd
    · intro k2 hk2bk hk2key
      rw [hpost, dlookup_dinsert_ne _ _ _ _ hk2key]
      exact dlookup_derase_ne wm.itemMap _ k2 hk2bk
  · intro α c1 c2 c3
    have s1 : wmStore (wmInit α 2) 0 "k1" c1 (1 / 2)
        = ⟨2, ["k1"], [("k1", ⟨c1, 0, 0, 0, 1 / 2⟩)]⟩ := by
      with_unfolding_all rfl
    have s2 : wmStore (⟨2, ["k1"], [("k1", ⟨c1, 0, 0, 0, 1 / 2⟩)]⟩ :
          WorkingMemory α) 0 "k2" c2 (7 / 10)
        = ⟨2, ["k1", "k2"],
            [("k1", ⟨c1, 0, 0, 0, 1 / 2⟩), ("k2", ⟨c2, 0, 0, 0, 7 / 10⟩)]⟩ := by
      with_unfolding_all rfl
    have hfold : evictFold
          [("k1", (⟨c1, 0, 0, 0, 1 / 2⟩ : MemoryItem α)),
           ("k2", ⟨c2, 0, 0, 0, 7 / 10⟩)] 0 ["k1", "k2"]
        = some (evictScore ⟨c1, 0, 0, 0, 1 / 2⟩ 0, "k1") := by
      unfold evictFold
      simp only [List.foldl_cons, List.foldl_nil]
      rw [show dlookup [("k1", (⟨c1, 0, 0, 0, 1 / 2⟩ : MemoryItem α)),
            ("k2", ⟨c2, 0, 0, 0, 7 / 10⟩)] "k1"
          = some ⟨c1, 0, 0, 0, 1 / 2⟩ from rfl,
        show dlookup [("k1", (⟨c1, 0, 0, 0, 1 / 2⟩ : MemoryItem α)),
            ("k2", ⟨c2, 0, 0, 0, 7 / 10⟩)] "k2"
          = some ⟨c2, 0, 0, 0, 7 / 10⟩ from rfl]
      simp only [pickF]
      rw [if_neg ?_]
      · intro hlt
        norm_num [evictScore] at hlt
    have hev3 : wmEvict (⟨2, ["k1", "k2"],
          [("k1", ⟨c1, 0, 0, 0, 1 / 2⟩), ("k2", ⟨c2, 0, 0, 0, 7 / 10⟩)]⟩ :
          WorkingMemory α) 0
        = ⟨2, ["k2"], [("k2", ⟨c2, 0, 0, 0, 7 / 10⟩)]⟩ := by
      rw [wmEvict_eq _ 0 (evictScore ⟨c1, 0, 0, 0, 1 / 2⟩ 0) "k1"
        (by simp) hfold (by simp)]
      with_unfolding_all rfl
    have s3 : wmStore (⟨2, ["k1", "k2"],
          [("k1", ⟨c1, 0, 0, 0, 1 / 2⟩), ("k2", ⟨c2, 0, 0, 0, 7 / 10⟩)]⟩ :
          WorkingMemory α) 0 "k3" c3 (9 / 10)
        = ⟨2, ["k2", "k3"],
            [("k2", ⟨c2, 0, 0, 0, 7 / 10⟩), ("k3", ⟨c3, 0, 0, 0, 9 / 10⟩)]⟩ := by
      rw [wmStore_eq_of_fresh_full (⟨2, ["k1", "k2"],
            [("k1", ⟨c1, 0, 0, 0, 1 / 2⟩), ("k2", ⟨c2, 0, 0, 0, 7 / 10⟩)]⟩ :
            WorkingMemory α) 0 "k3" c3 (9 / 10) rfl (by simp), hev3]
      with_unfolding_all rfl
    rw [s1, s2, s3]
    refine ⟨?_, ?_, ?_⟩ <;> with_unfolding_all rfl

/-- Witness for C4: on a concrete full two-item cache, inserting a fresh key
evicts the minimum-score item "a". -/
theorem eviction_policy_witness :
    ∃ s bk l1 l2,
      evictFold (WorkingMemory.itemMap ⟨2, ["a", "b"],
          [("a", ⟨0, 0, 0, 0, 1 / 2⟩), ("b", ⟨0, 0, 0, 0, 7 / 10⟩)]⟩) 0
          (WorkingMemory.items (α := Nat) ⟨2, ["a", "b"],
            [("a", ⟨0, 0, 0, 0, 1 / 2⟩), ("b", ⟨0, 0, 0, 0, 7 / 10⟩)]⟩)
        = some (s, bk) ∧
      scoredItems (WorkingMemory.itemMap ⟨2, ["a", "b"],
          [("a", ⟨0, 0, 0, 0, 1 / 2⟩), ("b", ⟨0, 0, 0, 0, 7 / 10⟩)]⟩) 0
          (WorkingMemory.items (α := Nat) ⟨2, ["a", "b"],
            [("a", ⟨0, 0, 0, 0, 1 / 2⟩), ("b", ⟨0, 0, 0, 0, 7 / 10⟩)]⟩)
        = l1 ++ (s, bk) :: l2 ∧
      (∀ q ∈ l1, s < q.1) ∧ (∀ q ∈ l2, s ≤ q.1) ∧
      dlookup (wmStore (⟨2, ["a", "b"],
          [("a", ⟨0, 0, 0, 0, 1 / 2⟩), ("b", ⟨0, 0, 0, 0, 7 / 10⟩)]⟩ :
          WorkingMemory Nat) 0 "c" 5 (9 / 10)).itemMap bk = none ∧
      (∀ k2, ¬ (k2 = bk) → ¬ (k2 = "c") →
        dlookup (wmStore (⟨2, ["a", "b"],
            [("a", ⟨0, 0, 0, 0, 1 / 2⟩), ("b", ⟨0, 0, 0, 0, 7 / 10⟩)]⟩ :
            WorkingMemory Nat) 0 "c" 5 (9 / 10)).itemMap k2
          = dlookup (WorkingMemory.itemMap ⟨2, ["a", "b"],
              [("a", ⟨0, 0, 0, 0, 1 / 2⟩), ("b", ⟨0, 0, 0, 0, 7 / 10⟩)]⟩) k2) :=
  eviction_policy.1 Nat
    ⟨2, ["a", "b"], [("a", ⟨0, 0, 0, 0, 1 / 2⟩), ("b", ⟨0, 0, 0, 0, 7 / 10⟩)]⟩
    0 "c" 5 (9 / 10) (by with_unfolding_all decide)
    (by with_unfolding_all decide) (by with_unfolding_all decide)
    (by with_unfolding_all decide) (by with_unfolding_all decide)

end TinyAria
